import Mathlib

/-!
# syslog-GOAT: the decoder `parseSyslogMessage` of `main.go`

A shallow embedding of the decoding function of the syslog server and of the
standard-library routines it calls (`strings.HasPrefix`, `strings.Contains`,
`strings.Index`, `strconv.Atoi`, `json.Marshal`), followed by theorems about
what the decoder does on its inputs.

A Go `string` is a sequence of bytes; it is embedded as a list of `Fin 256`.
Go's `int` is taken at its 64-bit width.
-/

namespace SyslogGoat

/-- One byte of a Go string. -/
abbrev Byte := Fin 256

/-- A Go string: its bytes in order. -/
abbrev GoString := List Byte

/-- The bytes of an ASCII literal. -/
def ascii (s : String) : GoString := s.toList.map (fun c => Fin.ofNat c.toNat)

/-! ## package `strings` -/

/-- Go `strings.HasPrefix(s, pre)`: `len(s) >= len(pre) && s[:len(pre)] == pre`. -/
def strings.HasPrefix (s pre : GoString) : Bool :=
  decide (pre.length ≤ s.length) && decide (s.take pre.length = pre)

/-- Go `strings.IndexByte(s, c)`: offset of the first `c` in `s`, or `-1`. -/
def strings.IndexByte : GoString → Byte → Int
  | [], _ => -1
  | b :: rest, c =>
    if b = c then 0
    else
      let i := strings.IndexByte rest c
      if i = -1 then -1 else i + 1

/-- Go `strings.Index(s, sep)` for a separator of one byte, the only way the
decoder calls it (`strings.Index` itself dispatches this case to `IndexByte`). -/
def strings.Index (s : GoString) (sep : Byte) : Int := strings.IndexByte s sep

/-- Go `strings.Contains(s, sep)`: `Index(s, sep) >= 0`. -/
def strings.Contains (s : GoString) (sep : Byte) : Bool := decide (0 ≤ strings.Index s sep)

/-- Go slice expression `s[lo:hi]`: the bytes from offset `lo` up to `hi`, and a
run-time panic (`none`) unless `0 <= lo <= hi <= len(s)`. -/
def slice (s : GoString) (lo hi : Int) : Option GoString :=
  if 0 ≤ lo ∧ lo ≤ hi ∧ hi ≤ (s.length : Int) then
    some ((s.drop lo.toNat).take (hi.toNat - lo.toNat))
  else none

/-- Go slice expression `s[lo:]`, that is `s[lo:len(s)]`. -/
def sliceFrom (s : GoString) (lo : Int) : Option GoString :=
  slice s lo (s.length : Int)

/-! ## package `strconv` -/

/-- The two kinds of `*strconv.NumError`. -/
inductive strconv.NumError where
  | errSyntax
  | errRange
  deriving DecidableEq, Repr

/-- Width of Go's `int` in bits (`strconv.IntSize`). -/
def strconv.IntSize : Nat := 64

/-- The digit loop of `strconv.ParseUint(s, 10, 0)` from accumulator `n`: a byte
that is not `0`..`9` is a syntax error, a product or sum that leaves `uint64`
is a range error with the value `maxVal`. -/
def strconv.parseUintLoop : GoString → Nat → Nat × Option strconv.NumError
  | [], n => (n, none)
  | c :: rest, n =>
    if 48 ≤ c.val ∧ c.val ≤ 57 then
      let d := c.val - 48
      if n ≥ (2 ^ 64 - 1) / 10 + 1 then (2 ^ 64 - 1, some strconv.NumError.errRange)
      else
        let n1 := n * 10 + d
        if n1 > 2 ^ 64 - 1 then (2 ^ 64 - 1, some strconv.NumError.errRange)
        else strconv.parseUintLoop rest n1
    else (0, some strconv.NumError.errSyntax)

/-- Go `strconv.ParseUint(s, 10, 0)`. -/
def strconv.ParseUint (s : GoString) : Nat × Option strconv.NumError :=
  if s = [] then (0, some strconv.NumError.errSyntax) else strconv.parseUintLoop s 0

/-- Go `strconv.ParseInt(s, 10, 0)`: an optional sign, then `ParseUint`, then
the range check against `1 << (IntSize-1)`. -/
def strconv.ParseInt (s : GoString) : Int × Option strconv.NumError :=
  match s with
  | [] => (0, some strconv.NumError.errSyntax)
  | c :: rest =>
    let neg : Bool := decide (c = 45)
    let body : GoString := if c = 43 ∨ c = 45 then rest else s
    let r := strconv.ParseUint body
    if r.2 = some strconv.NumError.errSyntax then (0, some strconv.NumError.errSyntax)
    else
      let cutoff : Nat := 2 ^ (strconv.IntSize - 1)
      if !neg && decide (r.1 ≥ cutoff) then ((cutoff : Int) - 1, some strconv.NumError.errRange)
      else if neg && decide (r.1 > cutoff) then (-(cutoff : Int), some strconv.NumError.errRange)
      else (if neg then -(r.1 : Int) else (r.1 : Int), none)

/-- The digit loop of the fast path of `strconv.Atoi`: `ch -= '0'` on a byte
wraps around, and `ch > 9` is a syntax error. -/
def strconv.atoiFastLoop : GoString → Int → Option Int
  | [], n => some n
  | ch :: rest, n =>
    let d : Byte := ch - 48
    if d > 9 then none else strconv.atoiFastLoop rest (n * 10 + (d.val : Int))

/-- Go `strconv.Atoi(s)`: the value and the error (`none` for `nil`). Strings of
1 to 18 bytes take the fast path, all others go through `ParseInt`. -/
def strconv.Atoi (s : GoString) : Int × Option strconv.NumError :=
  if 0 < s.length ∧ s.length < 19 then
    match s with
    | [] => (0, some strconv.NumError.errSyntax)
    | c :: rest =>
      let body : GoString := if c = 45 ∨ c = 43 then rest else s
      if body.length < 1 then (0, some strconv.NumError.errSyntax)
      else
        match strconv.atoiFastLoop body 0 with
        | none => (0, some strconv.NumError.errSyntax)
        | some n => (if c = 45 then -n else n, none)
  else strconv.ParseInt s

/-- Go `strconv.AppendInt(nil, n, 10)`: the decimal text of `n`. -/
def strconv.FormatInt (n : Int) : GoString :=
  if n < 0 then (45 : Byte) :: ascii (Nat.repr n.natAbs) else ascii (Nat.repr n.natAbs)

/-! ## package `unicode/utf8` -/

/-- Go `utf8.RuneError`, U+FFFD. -/
def utf8.RuneError : Nat := 0xFFFD

/-- Go `utf8.DecodeRuneInString(s)`: the first rune of `s` and its width in
bytes; `(RuneError, 1)` for an invalid or truncated encoding. The tables
`first` and `acceptRanges` of the library are written out as comparisons. -/
def utf8.DecodeRuneInString : GoString → Nat × Nat
  | [] => (utf8.RuneError, 0)
  | s0 :: t =>
    let b0 := s0.val
    if b0 < 0x80 then (b0, 1)
    else if b0 < 0xC2 ∨ 0xF4 < b0 then (utf8.RuneError, 1)
    else
      let sz := if b0 < 0xE0 then 2 else if b0 < 0xF0 then 3 else 4
      let lo := if b0 = 0xE0 then 0xA0 else if b0 = 0xF0 then 0x90 else 0x80
      let hi := if b0 = 0xED then 0x9F else if b0 = 0xF4 then 0x8F else 0xBF
      if t.length + 1 < sz then (utf8.RuneError, 1)
      else
        match t with
        | [] => (utf8.RuneError, 1)
        | s1 :: t1 =>
          if s1.val < lo ∨ hi < s1.val then (utf8.RuneError, 1)
          else if sz ≤ 2 then (((b0 &&& 0x1F) <<< 6) ||| (s1.val &&& 0x3F), 2)
          else
            match t1 with
            | [] => (utf8.RuneError, 1)
            | s2 :: t2 =>
              if s2.val < 0x80 ∨ 0xBF < s2.val then (utf8.RuneError, 1)
              else if sz ≤ 3 then
                (((b0 &&& 0x0F) <<< 12) ||| ((s1.val &&& 0x3F) <<< 6) ||| (s2.val &&& 0x3F), 3)
              else
                match t2 with
                | [] => (utf8.RuneError, 1)
                | s3 :: _ =>
                  if s3.val < 0x80 ∨ 0xBF < s3.val then (utf8.RuneError, 1)
                  else
                    (((b0 &&& 0x07) <<< 18) ||| ((s1.val &&& 0x3F) <<< 12)
                      ||| ((s2.val &&& 0x3F) <<< 6) ||| (s3.val &&& 0x3F), 4)

/-! ## package `encoding/json` -/

/-- The digit table `hex` of `encoding/json`. -/
def json.hex (n : Nat) : Byte := (ascii "0123456789abcdef").getD n 0

/-- The table `htmlSafeSet` of `encoding/json`: the ASCII bytes written as they
are, all from space on except the double quote, `&`, `<`, `>` and the backslash. -/
def json.htmlSafeSet (b : Byte) : Bool :=
  decide (0x20 ≤ b.val ∧ b.val < 0x80 ∧ b ≠ 34 ∧ b ≠ 38 ∧ b ≠ 60 ∧ b ≠ 62 ∧ b ≠ 92)

/-- The escape `encoding/json` writes for an ASCII byte outside `htmlSafeSet`. -/
def json.escapeByte (b : Byte) : GoString :=
  if b = 92 ∨ b = 34 then [92, b]
  else if b = 8 then ascii "\\b"
  else if b = 12 then ascii "\\f"
  else if b = 10 then ascii "\\n"
  else if b = 13 then ascii "\\r"
  else if b = 9 then ascii "\\t"
  else ascii "\\u00" ++ [json.hex (b.val >>> 4), json.hex (b.val &&& 0xF)]

/-- The loop of `appendString` of `encoding/json` with `escapeHTML` set.
`copy` counts the remaining bytes of a rune that is written as it is, `skip`
those of a rune whose escape is already written. -/
def json.appendStringLoop : GoString → Nat → Nat → GoString
  | [], _, _ => []
  | b :: rest, copy, skip =>
    if 0 < skip then json.appendStringLoop rest copy (skip - 1)
    else if 0 < copy then b :: json.appendStringLoop rest (copy - 1) 0
    else if b.val < 0x80 then
      (if json.htmlSafeSet b then [b] else json.escapeByte b) ++ json.appendStringLoop rest 0 0
    else
      let r := utf8.DecodeRuneInString ((b :: rest).take 4)
      if r.1 = utf8.RuneError ∧ r.2 = 1 then
        ascii "\\ufffd" ++ json.appendStringLoop rest 0 0
      else if r.1 = 0x2028 ∨ r.1 = 0x2029 then
        ascii "\\u202" ++ [json.hex (r.1 &&& 0xF)] ++ json.appendStringLoop rest 0 (r.2 - 1)
      else b :: json.appendStringLoop rest (r.2 - 1) 0

/-- The function `appendString(dst, src, true)` of `encoding/json`: `src` as a
quoted JSON string. -/
def json.appendString (src : GoString) : GoString :=
  (34 : Byte) :: json.appendStringLoop src 0 0 ++ [34]

/-- A value stored in the `map[string]interface{}` the decoder builds: a Go
integer or a Go string. -/
inductive json.Value where
  | int (n : Int)
  | str (s : GoString)
  deriving DecidableEq, Repr

/-- The JSON text of one value. -/
def json.encodeValue : json.Value → GoString
  | json.Value.int n => strconv.FormatInt n
  | json.Value.str s => json.appendString s

/-- Go `strings.Compare(a, b) <= 0`: bytewise lexicographic order. -/
def strings.le : GoString → GoString → Bool
  | [], _ => true
  | _ :: _, [] => false
  | a :: as, b :: bs => if a < b then true else if b < a then false else strings.le as bs

/-- The order `encoding/json` sorts the entries of a map in: by key. -/
def json.keyLe (a b : GoString × json.Value) : Prop := strings.le a.1 b.1 = true

instance json.keyLe.decidable : DecidableRel json.keyLe :=
  fun a b => inferInstanceAs (Decidable (strings.le a.1 b.1 = true))

/-- The members of a JSON object, separated by commas. -/
def json.encodeMembers : List (GoString × json.Value) → GoString
  | [] => []
  | [kv] => json.appendString kv.1 ++ (58 : Byte) :: json.encodeValue kv.2
  | kv :: rest =>
    json.appendString kv.1 ++ (58 : Byte) :: json.encodeValue kv.2
      ++ (44 : Byte) :: json.encodeMembers rest

/-- The errors `json.Marshal` can return. -/
inductive json.MarshalError where
  | unsupported
  deriving DecidableEq, Repr

/-- Go `json.Marshal` on a `map[string]interface{}` whose entries arrive in the
order `entries` (Go iterates a map in an unspecified order): the entries are
sorted by key and written as one object. With integer and string values there
is no unsupported type or value, so the error is always `nil`. -/
def json.Marshal (entries : List (GoString × json.Value)) :
    GoString × Option json.MarshalError :=
  ((123 : Byte) :: json.encodeMembers (entries.insertionSort json.keyLe) ++ [125], none)

/-! ## `main.go` -/

/-- Go `type Severity int`. -/
abbrev Severity := Int

/-- Go `type Facility int`. -/
abbrev Facility := Int

/-- Constant `Emergency Severity = iota`, the first of the block. -/
def Emergency : Severity := 0

/-- Constant `Debug`, the eighth of the `Severity` block. -/
def Debug : Severity := 7

/-- Constant `severityMask` of `parseSyslogMessage`. -/
def severityMask : Int := 0x07

/-- Constant `facilityShift` of `parseSyslogMessage`. -/
def facilityShift : Nat := 3

/-- Constant `facilityMask` of `parseSyslogMessage`. -/
def facilityMask : Int := 0xf8

/-- The four `logger.Fatalf` calls of `parseSyslogMessage`, each of which prints
its message and ends the process with `os.Exit(1)`. -/
inductive Fatal where
  /-- Line 146: `invalid priority value`. -/
  | invalidPriorityValue
  /-- Line 152: `strconv.Atoi error: %s`. -/
  | atoiError (e : strconv.NumError)
  /-- Line 158: `invalid priority value: %d`. -/
  | priorityOutOfRange (priorityNum : Int)
  /-- Line 163: `invalid severity value: %d`. -/
  | invalidSeverity (severityVal : Int)
  deriving DecidableEq, Repr

/-- The ways a call of the decoder ends. -/
inductive Outcome (α : Type) where
  /-- The call returns `(a, nil)`. -/
  | ok (a : α)
  /-- The call returns `(nil, err)`. -/
  | error (err : json.MarshalError)
  /-- The call does not return: `logger.Fatalf` ended the process. -/
  | fatal (f : Fatal)
  /-- The call does not return: a slice expression was out of range and the
  goroutine panicked. -/
  | panic
  deriving DecidableEq, Repr

/-- The values stored in the map `parsed`; the severity and the facility are of
the integer types `Severity` and `Facility`. -/
structure Parsed where
  severity : Int
  facility : Int
  hostname : GoString
  message : GoString
  deriving DecidableEq, Repr

/-- Lines 139 to 174 of `parseSyslogMessage`: everything up to the map literal,
yielding the four values the map is built from. -/
def parseSyslogMessage.parsed (msg : GoString) : Outcome Parsed :=
  if !strings.HasPrefix msg (ascii "<") || !strings.Contains msg 62 then
    Outcome.fatal Fatal.invalidPriorityValue
  else
    match slice msg 1 (strings.Index msg 62) with
    | none => Outcome.panic
    | some priorityValue =>
      let r := strconv.Atoi priorityValue
      match r.2 with
      | some e => Outcome.fatal (Fatal.atoiError e)
      | none =>
        let priorityNum := r.1
        if priorityNum < 0 ∨ priorityNum > 191 then
          Outcome.fatal (Fatal.priorityOutOfRange priorityNum)
        else
          let severityVal : Severity := Int.land priorityNum severityMask
          if severityVal < Emergency ∨ severityVal > Debug then
            Outcome.fatal (Fatal.invalidSeverity severityVal)
          else
            let facilityVal : Facility := (Int.land priorityNum facilityMask) >>> facilityShift
            let i := strings.Index msg 32
            if i ≠ -1 then
              match slice msg 4 i with
              | none => Outcome.panic
              | some hostname =>
                match sliceFrom msg (i + 1) with
                | none => Outcome.panic
                | some message => Outcome.ok ⟨severityVal, facilityVal, hostname, message⟩
            else Outcome.ok ⟨severityVal, facilityVal, ascii "unknown", []⟩

/-- The map literal of lines 177 to 182, its entries in the order written. -/
def parsedEntries (p : Parsed) : List (GoString × json.Value) :=
  [(ascii "severity", json.Value.int p.severity),
   (ascii "facility", json.Value.int p.facility),
   (ascii "hostname", json.Value.str p.hostname),
   (ascii "message", json.Value.str p.message)]

/-- The function `parseSyslogMessage` of `main.go`, where `iter` is the order in
which the Go runtime hands the entries of the map `parsed` to `json.Marshal`. -/
def parseSyslogMessageWith
    (iter : List (GoString × json.Value) → List (GoString × json.Value))
    (msg : GoString) : Outcome GoString :=
  match parseSyslogMessage.parsed msg with
  | Outcome.ok p =>
    match json.Marshal (iter (parsedEntries p)) with
    | (_, some err) => Outcome.error err
    | (jsonMessage, none) => Outcome.ok jsonMessage
  | Outcome.error err => Outcome.error err
  | Outcome.fatal f => Outcome.fatal f
  | Outcome.panic => Outcome.panic

/-- The function `parseSyslogMessage` of `main.go`, the map iterated in the
order of its literal. -/
def parseSyslogMessage (msg : GoString) : Outcome GoString :=
  parseSyslogMessageWith id msg

/-- The ways a call of `handleMessage` ends. -/
inductive Handled where
  /-- The decoder returned, and the call reached `s.Messages <- parsedMessage`
  with this payload (`none` for a nil slice) after logging `logged`. -/
  | sends (payload : Option GoString) (logged : Option json.MarshalError)
  /-- The process was ended by `logger.Fatalf` inside the decoder. -/
  | exits (f : Fatal)
  /-- The goroutine panicked inside the decoder; nothing recovers it. -/
  | panics
  deriving DecidableEq, Repr

/-- Lines 131 to 135 of `handleMessage`: what the method does once the call of
the decoder on line 130 has ended. A non-nil error is logged and nothing more:
there is no `return`, so the send of line 135 follows with the payload the
decoder returned, which next to an error is nil. -/
def handleMessage.afterDecode (decoded : Outcome GoString) : Handled :=
  match decoded with
  | Outcome.ok parsedMessage => Handled.sends (some parsedMessage) none
  | Outcome.error err => Handled.sends none (some err)
  | Outcome.fatal f => Handled.exits f
  | Outcome.panic => Handled.panics

/-- The method `handleMessage` of `main.go` up to its channel send. -/
def handleMessage (message : GoString) : Handled :=
  handleMessage.afterDecode (parseSyslogMessage message)

/-! ## The `Facility` constants of `main.go`

The block of lines 35 to 60 gives its first constant the expression `iota << 3`,
which every later line of the block repeats with its own `iota`. -/

/-- Constant `KernelMessages Facility = iota << 3`, with `iota = 0`. -/
def KernelMessages : Facility := ((0 <<< 3 : Nat) : Int)

/-- Constant `UserLevelMessages`, the implicit `iota << 3` with `iota = 1`. -/
def UserLevelMessages : Facility := ((1 <<< 3 : Nat) : Int)

/-- Constant `MailSystem`, the implicit `iota << 3` with `iota = 2`. -/
def MailSystem : Facility := ((2 <<< 3 : Nat) : Int)

/-- Constant `SystemDaemons`, the implicit `iota << 3` with `iota = 3`. -/
def SystemDaemons : Facility := ((3 <<< 3 : Nat) : Int)

/-- Constant `SecurityOrAuthorizationMessages`, the implicit `iota << 3` with `iota = 4`. -/
def SecurityOrAuthorizationMessages : Facility := ((4 <<< 3 : Nat) : Int)

/-- Constant `MessagesGeneratedInternallyBySyslogd`, the implicit `iota << 3` with `iota = 5`. -/
def MessagesGeneratedInternallyBySyslogd : Facility := ((5 <<< 3 : Nat) : Int)

/-- Constant `LinePrinterSubsystem`, the implicit `iota << 3` with `iota = 6`. -/
def LinePrinterSubsystem : Facility := ((6 <<< 3 : Nat) : Int)

/-- Constant `NetworkNewsSubsystem`, the implicit `iota << 3` with `iota = 7`. -/
def NetworkNewsSubsystem : Facility := ((7 <<< 3 : Nat) : Int)

/-- Constant `UUCPSubsystem`, the implicit `iota << 3` with `iota = 8`. -/
def UUCPSubsystem : Facility := ((8 <<< 3 : Nat) : Int)

/-- Constant `ClockDaemon`, the implicit `iota << 3` with `iota = 9`. -/
def ClockDaemon : Facility := ((9 <<< 3 : Nat) : Int)

/-- Constant `SecurityOrAuthorizationMessages2`, the implicit `iota << 3` with `iota = 10`. -/
def SecurityOrAuthorizationMessages2 : Facility := ((10 <<< 3 : Nat) : Int)

/-- Constant `FTPDaemon`, the implicit `iota << 3` with `iota = 11`. -/
def FTPDaemon : Facility := ((11 <<< 3 : Nat) : Int)

/-- Constant `NTPSubsystem`, the implicit `iota << 3` with `iota = 12`. -/
def NTPSubsystem : Facility := ((12 <<< 3 : Nat) : Int)

/-- Constant `LogAudit`, the implicit `iota << 3` with `iota = 13`. -/
def LogAudit : Facility := ((13 <<< 3 : Nat) : Int)

/-- Constant `LogAlert`, the implicit `iota << 3` with `iota = 14`. -/
def LogAlert : Facility := ((14 <<< 3 : Nat) : Int)

/-- Constant `ClockDaemon2`, the implicit `iota << 3` with `iota = 15`. -/
def ClockDaemon2 : Facility := ((15 <<< 3 : Nat) : Int)

/-- Constant `LocalUse0`, the implicit `iota << 3` with `iota = 16`. -/
def LocalUse0 : Facility := ((16 <<< 3 : Nat) : Int)

/-- Constant `LocalUse1`, the implicit `iota << 3` with `iota = 17`. -/
def LocalUse1 : Facility := ((17 <<< 3 : Nat) : Int)

/-- Constant `LocalUse2`, the implicit `iota << 3` with `iota = 18`. -/
def LocalUse2 : Facility := ((18 <<< 3 : Nat) : Int)

/-- Constant `LocalUse3`, the implicit `iota << 3` with `iota = 19`. -/
def LocalUse3 : Facility := ((19 <<< 3 : Nat) : Int)

/-- Constant `LocalUse4`, the implicit `iota << 3` with `iota = 20`. -/
def LocalUse4 : Facility := ((20 <<< 3 : Nat) : Int)

/-- Constant `LocalUse5`, the implicit `iota << 3` with `iota = 21`. -/
def LocalUse5 : Facility := ((21 <<< 3 : Nat) : Int)

/-- Constant `LocalUse6`, the implicit `iota << 3` with `iota = 22`. -/
def LocalUse6 : Facility := ((22 <<< 3 : Nat) : Int)

/-- Constant `LocalUse7`, the implicit `iota << 3` with `iota = 23`. -/
def LocalUse7 : Facility := ((23 <<< 3 : Nat) : Int)

/-- The `Facility` constants in the order they are declared. -/
def facilityConstants : List Facility :=
  [KernelMessages, UserLevelMessages, MailSystem,
   SystemDaemons, SecurityOrAuthorizationMessages, MessagesGeneratedInternallyBySyslogd,
   LinePrinterSubsystem, NetworkNewsSubsystem, UUCPSubsystem,
   ClockDaemon, SecurityOrAuthorizationMessages2, FTPDaemon,
   NTPSubsystem, LogAudit, LogAlert,
   ClockDaemon2, LocalUse0, LocalUse1,
   LocalUse2, LocalUse3, LocalUse4,
   LocalUse5, LocalUse6, LocalUse7]

/-! ## The goroutines of the server and the channel `Messages` -/

/-- What can happen next to a running server: the scanner of `handleMessages`
yields a message and `go s.handleMessage(message)` runs up to its channel send,
or a consumer executes a receive `<-s.Messages` that meets the parked sender
number `k`. -/
inductive Event where
  | datagram (message : GoString)
  | receive (k : Nat)
  deriving DecidableEq, Repr

/-- The server as far as delivery goes. `NewSyslogServer` makes `Messages` with
`make(chan []byte)`, a channel without buffer: a send completes only when a
receive meets it, and until then its goroutine is parked in the send. -/
structure Server where
  /-- The process has ended, by `logger.Fatalf` or by a panic no one recovers. -/
  exited : Bool
  /-- The payloads of the goroutines parked in the send of line 135, oldest first. -/
  parked : List (Option GoString)
  /-- The number of calls of `handleMessage` that have returned. -/
  returned : Nat
  /-- The payloads a consumer has received, oldest first. -/
  received : List (Option GoString)
  deriving DecidableEq, Repr

/-- The server right after `NewSyslogServer`: nothing parked, nothing received. -/
def NewSyslogServer : Server := ⟨false, [], 0, []⟩

/-- One event on the server. A datagram whose decoding ends the process leaves
an exited server, on which nothing happens any more; any other datagram parks
one more goroutine. A receive releases the parked goroutine it meets, and
waits, leaving the state as it is, when there is none. -/
def Server.step (s : Server) : Event → Server
  | Event.datagram message =>
    if s.exited then s
    else
      match handleMessage message with
      | Handled.sends payload _ => { s with parked := s.parked ++ [payload] }
      | Handled.exits _ => { s with exited := true }
      | Handled.panics => { s with exited := true }
  | Event.receive k =>
    if s.exited then s
    else
      match s.parked.get? k with
      | none => s
      | some payload =>
        { s with parked := s.parked.eraseIdx k, returned := s.returned + 1,
                 received := s.received ++ [payload] }

/-- A sequence of events on the server, in order. -/
def Server.run (s : Server) (es : List Event) : Server := es.foldl Server.step s

/-! ## Notions used by the statements -/

/-- The decimal text of a natural number, as a client writes a priority. -/
def decimal (p : Nat) : GoString := ascii (Nat.repr p)

/-- Lines 169 to 174 of `parseSyslogMessage` on their own: the host name and the
message cut out of `msg`, next to a severity and a facility already derived. -/
def hostAndMessage (msg : GoString) (sev fac : Int) : Outcome Parsed :=
  if strings.Index msg 32 ≠ -1 then
    match slice msg 4 (strings.Index msg 32) with
    | none => Outcome.panic
    | some hostname =>
      match sliceFrom msg (strings.Index msg 32 + 1) with
      | none => Outcome.panic
      | some message => Outcome.ok ⟨sev, fac, hostname, message⟩
  else Outcome.ok ⟨sev, fac, ascii "unknown", []⟩

/-- An ASCII decimal digit, `0` to `9`. -/
def isDigit (b : Byte) : Bool := decide (48 ≤ b.val) && decide (b.val ≤ 57)

/-- A non-empty text of decimal digits only. -/
def isDigits (t : GoString) : Bool := !t.isEmpty && t.all isDigit

/-- A non-empty text of decimal digits, or one sign `+` or `-` before such a
text. -/
def isSignedDigits (t : GoString) : Bool :=
  isDigits t ||
    match t with
    | [] => false
    | c :: rest => (decide (c = 43) || decide (c = 45)) && isDigits rest

/-! ## Lemmas on the string primitives -/

theorem ascii_lt : ascii "<" = [60] := by decide

theorem indexByte_ge (s : GoString) (c : Byte) : -1 ≤ strings.IndexByte s c := by
  induction s with
  | nil => simp [strings.IndexByte]
  | cons b rest ih =>
    simp only [strings.IndexByte]
    split_ifs <;> omega

theorem indexByte_of_not_mem (s : GoString) (c : Byte) (h : c ∉ s) :
    strings.IndexByte s c = -1 := by
  induction s with
  | nil => simp [strings.IndexByte]
  | cons b rest ih =>
    have hb : b ≠ c := fun e => h (by simp [e])
    have hr : c ∉ rest := fun e => h (by simp [e])
    simp [strings.IndexByte, hb, ih hr]

theorem indexByte_append_cons (pre post : GoString) (c : Byte) (h : c ∉ pre) :
    strings.IndexByte (pre ++ c :: post) c = (pre.length : Int) := by
  induction pre with
  | nil => simp [strings.IndexByte]
  | cons b rest ih =>
    have hb : b ≠ c := fun e => h (by simp [e])
    have hr : c ∉ rest := fun e => h (by simp [e])
    have e := ih hr
    have e2 : strings.IndexByte (b :: (rest ++ c :: post)) c
        = if strings.IndexByte (rest ++ c :: post) c = -1 then -1
          else strings.IndexByte (rest ++ c :: post) c + 1 := by
      simp [strings.IndexByte, hb]
    rw [List.cons_append, e2, e, List.length_cons, if_neg (by omega)]
    push_cast
    rfl

theorem exists_first (s : GoString) (c : Byte) (h : c ∈ s) :
    ∃ pre post, s = pre ++ c :: post ∧ c ∉ pre := by
  induction s with
  | nil => simp at h
  | cons b rest ih =>
    by_cases hb : b = c
    · exact ⟨[], rest, by simp [hb], by simp⟩
    · have hr : c ∈ rest := by
        rcases List.mem_cons.mp h with e | e
        · exact absurd e.symm hb
        · exact e
      obtain ⟨pre, post, e, hn⟩ := ih hr
      refine ⟨b :: pre, post, by simp [e], ?_⟩
      intro hm
      rcases List.mem_cons.mp hm with e2 | e2
      · exact hb e2.symm
      · exact hn e2

theorem indexByte_eq_neg_one_iff (s : GoString) (c : Byte) :
    strings.IndexByte s c = -1 ↔ c ∉ s := by
  constructor
  · intro h hm
    obtain ⟨pre, post, e, hn⟩ := exists_first s c hm
    rw [e, indexByte_append_cons pre post c hn] at h
    omega
  · exact indexByte_of_not_mem s c

theorem contains_iff (s : GoString) (c : Byte) : strings.Contains s c = true ↔ c ∈ s := by
  unfold strings.Contains strings.Index
  rw [decide_eq_true_iff]
  constructor
  · intro h
    by_contra hn
    rw [indexByte_of_not_mem s c hn] at h
    omega
  · intro h
    have h1 := indexByte_ge s c
    have h2 : strings.IndexByte s c ≠ -1 := fun e => (indexByte_eq_neg_one_iff s c).mp e h
    omega

theorem hasPrefix_lt_iff (s : GoString) :
    strings.HasPrefix s (ascii "<") = true ↔ ∃ rest, s = 60 :: rest := by
  rw [ascii_lt]
  cases s with
  | nil => simp [strings.HasPrefix]
  | cons b rest => simp [strings.HasPrefix]

theorem slice_mid (pre mid post : GoString) :
    slice (pre ++ mid ++ post) (pre.length : Int) ((pre.length : Int) + (mid.length : Int))
      = some mid := by
  unfold slice
  have h : (0 : Int) ≤ (pre.length : Int) ∧ (pre.length : Int) ≤ (pre.length : Int) + mid.length ∧
      (pre.length : Int) + mid.length ≤ ((pre ++ mid ++ post).length : Int) := by
    simp only [List.length_append]
    push_cast
    omega
  rw [if_pos h]
  have e1 : ((pre.length : Int)).toNat = pre.length := by simp
  have e2 : ((pre.length : Int) + (mid.length : Int)).toNat = pre.length + mid.length := by
    omega
  rw [e1, e2, List.append_assoc, List.drop_left]
  simp

theorem sliceFrom_append (pre post : GoString) :
    sliceFrom (pre ++ post) (pre.length : Int) = some post := by
  have h := slice_mid pre post []
  simp only [List.append_nil] at h
  unfold sliceFrom
  rw [List.length_append]
  push_cast
  exact h

/-! ## The decoder, step by step -/

set_option maxRecDepth 100000 in
theorem mask_shift_small : ∀ k : Nat, k < 192 →
    (k &&& 7 = k % 8 ∧ (k &&& 248) >>> 3 = k / 8) := by
  decide

theorem severity_facility_of_range (n : Int) (h0 : 0 ≤ n) (h1 : n ≤ 191) :
    Int.land n severityMask = n % 8 ∧ (Int.land n facilityMask) >>> facilityShift = n / 8 := by
  obtain ⟨k, rfl⟩ := Int.eq_ofNat_of_zero_le h0
  have hk : k < 192 := by omega
  obtain ⟨e1, e2⟩ := mask_shift_small k hk
  have a1 : Int.land (k : Int) severityMask = ((k &&& 7 : Nat) : Int) := rfl
  have a2 : (Int.land (k : Int) facilityMask) >>> facilityShift
      = (((k &&& 248) >>> 3 : Nat) : Int) := rfl
  rw [a1, a2, e1, e2]
  constructor <;> norm_cast

theorem header_index (t rest : GoString) (h : (62 : Byte) ∉ t) :
    strings.Index (60 :: t ++ 62 :: rest) 62 = 1 + (t.length : Int) := by
  have hn : (62 : Byte) ∉ (60 :: t) := by
    intro hm
    rcases List.mem_cons.mp hm with e | e
    · exact absurd e (by decide)
    · exact h e
  have := indexByte_append_cons (60 :: t) rest 62 hn
  unfold strings.Index
  rw [List.cons_append] at this
  rw [List.cons_append, this, List.length_cons]
  push_cast
  omega

theorem header_slice (t rest : GoString) :
    slice (60 :: t ++ 62 :: rest) 1 (1 + (t.length : Int)) = some t := by
  have := slice_mid [60] t (62 :: rest)
  simpa using this

/-- What `parseSyslogMessage` computes on an input whose first byte is `<` and
whose first `>` comes right after the text `t`. -/
theorem parsed_header (t rest : GoString) (h : (62 : Byte) ∉ t) :
    parseSyslogMessage.parsed (60 :: t ++ 62 :: rest) =
      match (strconv.Atoi t).2 with
      | some e => Outcome.fatal (Fatal.atoiError e)
      | none =>
        if (strconv.Atoi t).1 < 0 ∨ (strconv.Atoi t).1 > 191 then
          Outcome.fatal (Fatal.priorityOutOfRange (strconv.Atoi t).1)
        else
          hostAndMessage (60 :: t ++ 62 :: rest)
            ((strconv.Atoi t).1 % 8) ((strconv.Atoi t).1 / 8) := by
  have hp : strings.HasPrefix (60 :: t ++ 62 :: rest) (ascii "<") = true :=
    (hasPrefix_lt_iff _).mpr ⟨t ++ 62 :: rest, by simp⟩
  have hc : strings.Contains (60 :: t ++ 62 :: rest) 62 = true :=
    (contains_iff _ _).mpr (by simp)
  unfold parseSyslogMessage.parsed
  rw [hp, hc, header_index t rest h, header_slice t rest]
  simp only [Bool.not_true, Bool.or_self, Bool.false_eq_true, if_false]
  cases hA : (strconv.Atoi t).2 with
  | some e => rfl
  | none =>
    simp only []
    by_cases hr : (strconv.Atoi t).1 < 0 ∨ (strconv.Atoi t).1 > 191
    · rw [if_pos hr, if_pos hr]
    · rw [if_neg hr, if_neg hr]
      have h0 : 0 ≤ (strconv.Atoi t).1 := by omega
      have h1 : (strconv.Atoi t).1 ≤ 191 := by omega
      obtain ⟨e1, e2⟩ := severity_facility_of_range _ h0 h1
      rw [e1, e2]
      have hs : ¬ ((strconv.Atoi t).1 % 8 < Emergency ∨ (strconv.Atoi t).1 % 8 > Debug) := by
        unfold Emergency Debug
        omega
      rw [if_neg hs]
      rfl

theorem hostAndMessage_no_space (msg : GoString) (sev fac : Int)
    (h : (32 : Byte) ∉ msg) :
    hostAndMessage msg sev fac = Outcome.ok ⟨sev, fac, ascii "unknown", []⟩ := by
  unfold hostAndMessage strings.Index
  rw [indexByte_of_not_mem msg 32 h]
  simp

theorem hostAndMessage_space (pre post : GoString) (sev fac : Int)
    (h : (32 : Byte) ∉ pre) (hl : 4 ≤ pre.length) :
    hostAndMessage (pre ++ 32 :: post) sev fac = Outcome.ok ⟨sev, fac, pre.drop 4, post⟩ := by
  have hi : strings.Index (pre ++ 32 :: post) 32 = (pre.length : Int) :=
    indexByte_append_cons pre post 32 h
  have hs : slice (pre ++ 32 :: post) 4 (pre.length : Int) = some (pre.drop 4) := by
    have := slice_mid (pre.take 4) (pre.drop 4) (32 :: post)
    rw [List.take_append_drop, List.length_take, List.length_drop,
      Nat.min_eq_left hl] at this
    have e : ((4 : Nat) : Int) + ((pre.length - 4 : Nat) : Int) = (pre.length : Int) := by omega
    rw [e] at this
    exact this
  have hm : sliceFrom (pre ++ 32 :: post) ((pre.length : Int) + 1) = some post := by
    have := sliceFrom_append (pre ++ [32]) post
    simpa using this
  unfold hostAndMessage
  rw [hi, hs, hm]
  have : (pre.length : Int) ≠ -1 := by omega
  simp [this]

theorem parseWith_of_parsed (iter : List (GoString × json.Value) → List (GoString × json.Value))
    (msg : GoString) (r : Parsed) (h : parseSyslogMessage.parsed msg = Outcome.ok r) :
    parseSyslogMessageWith iter msg = Outcome.ok (json.Marshal (iter (parsedEntries r))).1 := by
  unfold parseSyslogMessageWith
  rw [h]
  rfl

theorem parseWith_of_fatal (iter : List (GoString × json.Value) → List (GoString × json.Value))
    (msg : GoString) (f : Fatal) (h : parseSyslogMessage.parsed msg = Outcome.fatal f) :
    parseSyslogMessageWith iter msg = Outcome.fatal f := by
  unfold parseSyslogMessageWith
  rw [h]

theorem parseWith_of_panic (iter : List (GoString × json.Value) → List (GoString × json.Value))
    (msg : GoString) (h : parseSyslogMessage.parsed msg = Outcome.panic) :
    parseSyslogMessageWith iter msg = Outcome.panic := by
  unfold parseSyslogMessageWith
  rw [h]

set_option maxRecDepth 100000 in
theorem decimal_small : ∀ p : Nat, p < 192 →
    (strconv.Atoi (decimal p) = ((p : Int), none) ∧ (62 : Byte) ∉ decimal p ∧
      (32 : Byte) ∉ decimal p ∧ 1 ≤ (decimal p).length) := by
  decide

/-- The decoder on `<p>` followed by any text, for a priority in range: the
severity and the facility are the remainder and the quotient by 8, and the rest
is up to the search for the first space. -/
theorem parsed_decimal (p : Nat) (hp : p ≤ 191) (rest : GoString) :
    parseSyslogMessage.parsed (60 :: decimal p ++ 62 :: rest) =
      hostAndMessage (60 :: decimal p ++ 62 :: rest) ((p : Int) % 8) ((p : Int) / 8) := by
  obtain ⟨hA, h62, _, _⟩ := decimal_small p (by omega)
  rw [parsed_header (decimal p) rest h62, hA]
  simp only []
  rw [if_neg (by omega)]

/-! ## The claims about the decoder -/

/-- C1 (defect in the code): on the datagram of the repository's own test,
`<13>Apr 20 15:04:05 hostname myapp: message`, the decoder does not yield the
host name `hostname` and the message `myapp: message` the test expects: the
first space of the whole input is the one inside the timestamp, so the host
name is `Apr` and the message is the rest of the timestamp and all after it. -/
theorem C1_test_datagram_hostname_is_month :
    parseSyslogMessage.parsed (ascii "<13>Apr 20 15:04:05 hostname myapp: message")
        = Outcome.ok ⟨5, 1, ascii "Apr", ascii "20 15:04:05 hostname myapp: message"⟩
      ∧ parseSyslogMessage (ascii "<13>Apr 20 15:04:05 hostname myapp: message")
        = Outcome.ok (ascii ("\x7b\"facility\":1,\"hostname\":\"Apr\"," ++
            "\"message\":\"20 15:04:05 hostname myapp: message\",\"severity\":5\x7d"))
      ∧ ascii "Apr" ≠ ascii "hostname"
      ∧ ascii "20 15:04:05 hostname myapp: message" ≠ ascii "myapp: message" := by
  set_option maxRecDepth 100000 in decide

/-- C2 (defect in the code): the decoder is not total. On `<1> x` the first
space is at offset 3, the slice `msg[4:3]` has inverted bounds, and the call
panics instead of yielding a record or an error. -/
theorem C2_inverted_slice_panics :
    strings.Index (ascii "<1> x") 32 = 3
      ∧ slice (ascii "<1> x") 4 (strings.Index (ascii "<1> x") 32) = none
      ∧ parseSyslogMessage (ascii "<1> x") = Outcome.panic := by
  decide

theorem template_split :
    ascii ">Mon dd hh:mm:ss host tag: msg"
      = 62 :: (ascii "Mon" ++ 32 :: ascii "dd hh:mm:ss host tag: msg") := by
  decide

/-- C3: for every priority `p` in `[0,191]` the decoder succeeds on
`<p>Mon dd hh:mm:ss host tag: msg`, and the record has severity `p mod 8` and
facility `p div 8`. -/
theorem C3_severity_facility_of_priority (p : Nat) (hp : p ≤ 191) :
    ∃ r : Parsed,
      parseSyslogMessage.parsed (ascii "<" ++ decimal p ++ ascii ">Mon dd hh:mm:ss host tag: msg")
        = Outcome.ok r
      ∧ r.severity = ((p % 8 : Nat) : Int) ∧ r.facility = ((p / 8 : Nat) : Int)
      ∧ parseSyslogMessage (ascii "<" ++ decimal p ++ ascii ">Mon dd hh:mm:ss host tag: msg")
        = Outcome.ok (json.Marshal (parsedEntries r)).1 := by
  obtain ⟨_, _, h32, hlen⟩ := decimal_small p (by omega)
  have hpre : (32 : Byte) ∉ (60 :: decimal p ++ 62 :: ascii "Mon") := by
    intro hm
    simp only [List.cons_append, List.mem_cons, List.mem_append] at hm
    rcases hm with e | e | e | e
    · exact absurd e (by decide)
    · exact h32 e
    · exact absurd e (by decide)
    · exact absurd e (by decide)
  have hl : 4 ≤ (60 :: decimal p ++ 62 :: ascii "Mon").length := by
    have h3 : (ascii "Mon").length = 3 := by decide
    simp only [List.cons_append, List.length_cons, List.length_append, h3]
    omega
  have hmsg : ascii "<" ++ decimal p ++ ascii ">Mon dd hh:mm:ss host tag: msg"
      = (60 :: decimal p ++ 62 :: ascii "Mon") ++ 32 :: ascii "dd hh:mm:ss host tag: msg" := by
    rw [ascii_lt, template_split]
    simp
  have hmsg2 : (60 :: decimal p ++ 62 :: ascii "Mon") ++ 32 :: ascii "dd hh:mm:ss host tag: msg"
      = 60 :: decimal p ++ 62 :: (ascii "Mon" ++ 32 :: ascii "dd hh:mm:ss host tag: msg") := by
    simp
  have hparsed : parseSyslogMessage.parsed
      (ascii "<" ++ decimal p ++ ascii ">Mon dd hh:mm:ss host tag: msg")
      = Outcome.ok ⟨(p : Int) % 8, (p : Int) / 8, (60 :: decimal p ++ 62 :: ascii "Mon").drop 4,
          ascii "dd hh:mm:ss host tag: msg"⟩ := by
    rw [hmsg, hmsg2, parsed_decimal p hp, ← hmsg2]
    exact hostAndMessage_space _ _ _ _ hpre hl
  refine ⟨_, hparsed, ?_, ?_, ?_⟩
  · simp
  · simp
  · exact parseWith_of_parsed id _ _ hparsed

/-- C3 at priority 13. -/
theorem C3_severity_facility_of_priority_witness :
    13 ≤ 191 ∧ ∃ r : Parsed,
      parseSyslogMessage.parsed (ascii "<" ++ decimal 13 ++ ascii ">Mon dd hh:mm:ss host tag: msg")
        = Outcome.ok r
      ∧ r.severity = ((13 % 8 : Nat) : Int) ∧ r.facility = ((13 / 8 : Nat) : Int)
      ∧ parseSyslogMessage (ascii "<" ++ decimal 13 ++ ascii ">Mon dd hh:mm:ss host tag: msg")
        = Outcome.ok (json.Marshal (parsedEntries r)).1 :=
  ⟨by decide, C3_severity_facility_of_priority 13 (by decide)⟩

/-- C4: on `<t>rest`, where `t` holds no `>` and `strconv.Atoi` either rejects
`t` or gives a value outside `[0,191]`, the decoder ends in one of its fatal
failures and yields no record. -/
theorem C4_bad_priority_no_record (t rest : GoString) (h62 : (62 : Byte) ∉ t)
    (hbad : (strconv.Atoi t).2 ≠ none ∨ (strconv.Atoi t).1 < 0 ∨ 191 < (strconv.Atoi t).1) :
    (∃ f, parseSyslogMessage (ascii "<" ++ t ++ ascii ">" ++ rest) = Outcome.fatal f
        ∧ ((∃ e, f = Fatal.atoiError e) ∨ f = Fatal.priorityOutOfRange (strconv.Atoi t).1))
      ∧ ∀ b, parseSyslogMessage (ascii "<" ++ t ++ ascii ">" ++ rest) ≠ Outcome.ok b := by
  have hmsg : ascii "<" ++ t ++ ascii ">" ++ rest = 60 :: t ++ 62 :: rest := by
    have : ascii ">" = [62] := by decide
    rw [ascii_lt, this]
    simp
  have key : ∃ f, parseSyslogMessage (ascii "<" ++ t ++ ascii ">" ++ rest) = Outcome.fatal f
      ∧ ((∃ e, f = Fatal.atoiError e) ∨ f = Fatal.priorityOutOfRange (strconv.Atoi t).1) := by
    rw [hmsg]
    have hh := parsed_header t rest h62
    cases hA : (strconv.Atoi t).2 with
    | some e =>
      rw [hA] at hh
      exact ⟨_, parseWith_of_fatal id _ _ hh, Or.inl ⟨e, rfl⟩⟩
    | none =>
      rw [hA] at hh
      have hr : (strconv.Atoi t).1 < 0 ∨ (strconv.Atoi t).1 > 191 := by
        rcases hbad with h | h | h
        · exact absurd hA h
        · exact Or.inl h
        · exact Or.inr h
      simp only [] at hh
      rw [if_pos hr] at hh
      exact ⟨_, parseWith_of_fatal id _ _ hh, Or.inr rfl⟩
  refine ⟨key, ?_⟩
  obtain ⟨f, hf, _⟩ := key
  intro b hb
  rw [hf] at hb
  exact Outcome.noConfusion hb

/-- C4 at `<999>...`. -/
theorem C4_bad_priority_no_record_witness :
    (62 : Byte) ∉ ascii "999"
      ∧ ((strconv.Atoi (ascii "999")).2 ≠ none ∨ (strconv.Atoi (ascii "999")).1 < 0
          ∨ 191 < (strconv.Atoi (ascii "999")).1)
      ∧ ((∃ f, parseSyslogMessage (ascii "<" ++ ascii "999" ++ ascii ">" ++ ascii "...")
            = Outcome.fatal f
          ∧ ((∃ e, f = Fatal.atoiError e)
            ∨ f = Fatal.priorityOutOfRange (strconv.Atoi (ascii "999")).1))
        ∧ ∀ b, parseSyslogMessage (ascii "<" ++ ascii "999" ++ ascii ">" ++ ascii "...")
            ≠ Outcome.ok b) :=
  ⟨by decide, by decide, C4_bad_priority_no_record (ascii "999") (ascii "...") (by decide)
    (by decide)⟩

theorem header_decompose (msg : GoString)
    (hp : strings.HasPrefix msg (ascii "<") = true) (hc : strings.Contains msg 62 = true) :
    ∃ t rest, msg = 60 :: t ++ 62 :: rest ∧ (62 : Byte) ∉ t := by
  obtain ⟨m, rfl⟩ := (hasPrefix_lt_iff msg).mp hp
  have hm : (62 : Byte) ∈ m := by
    rcases List.mem_cons.mp ((contains_iff _ _).mp hc) with e | e
    · exact absurd e (by decide)
    · exact e
  obtain ⟨t, rest, e, hn⟩ := exists_first m 62 hm
  exact ⟨t, rest, by rw [e]; simp, hn⟩

theorem parsed_guard (msg : GoString)
    (h : strings.HasPrefix msg (ascii "<") = false ∨ strings.Contains msg 62 = false) :
    parseSyslogMessage.parsed msg = Outcome.fatal Fatal.invalidPriorityValue := by
  unfold parseSyslogMessage.parsed
  rcases h with h | h <;> simp [h]

theorem hostAndMessage_fields (msg : GoString) (sev fac : Int) (r : Parsed)
    (h : hostAndMessage msg sev fac = Outcome.ok r) : r.severity = sev ∧ r.facility = fac := by
  unfold hostAndMessage at h
  split_ifs at h
  · split at h
    · exact Outcome.noConfusion h
    · split at h
      · exact Outcome.noConfusion h
      · cases h
        exact ⟨rfl, rfl⟩
  · cases h
    exact ⟨rfl, rfl⟩

theorem hostAndMessage_not_fatal (msg : GoString) (sev fac : Int) (f : Fatal) :
    hostAndMessage msg sev fac ≠ Outcome.fatal f := by
  unfold hostAndMessage
  intro h
  split_ifs at h
  split at h
  · exact Outcome.noConfusion h
  · split at h <;> exact Outcome.noConfusion h

/-- C5: an input that does not begin with `<`, or that holds no `>` at all, ends
in the fatal failure of line 146 and yields no record. The failure comes from
the guard, ahead of the slicing: without a `>` the slice `msg[1:-1]` of line 149
would be out of range, and the outcome is not that panic. -/
theorem C5_missing_delimiters (msg : GoString)
    (h : msg.head? ≠ some 60 ∨ (62 : Byte) ∉ msg) :
    parseSyslogMessage.parsed msg = Outcome.fatal Fatal.invalidPriorityValue
      ∧ parseSyslogMessage msg = Outcome.fatal Fatal.invalidPriorityValue
      ∧ (∀ b, parseSyslogMessage msg ≠ Outcome.ok b)
      ∧ ((62 : Byte) ∉ msg → slice msg 1 (strings.Index msg 62) = none) := by
  have hg : strings.HasPrefix msg (ascii "<") = false ∨ strings.Contains msg 62 = false := by
    rcases h with h | h
    · left
      rw [Bool.eq_false_iff]
      intro hp
      obtain ⟨rest, e⟩ := (hasPrefix_lt_iff msg).mp hp
      exact h (by rw [e]; rfl)
    · right
      rw [Bool.eq_false_iff]
      intro hc
      exact h ((contains_iff _ _).mp hc)
  have hp := parsed_guard msg hg
  have hf := parseWith_of_fatal id msg _ hp
  refine ⟨hp, hf, ?_, ?_⟩
  · intro b hb
    have : parseSyslogMessage msg = Outcome.fatal Fatal.invalidPriorityValue := hf
    rw [this] at hb
    exact Outcome.noConfusion hb
  · intro hn
    unfold strings.Index slice
    rw [indexByte_of_not_mem msg 62 hn]
    simp

/-- C5 at `garbage`. -/
theorem C5_missing_delimiters_witness :
    ((ascii "garbage").head? ≠ some 60 ∨ (62 : Byte) ∉ ascii "garbage")
      ∧ (parseSyslogMessage.parsed (ascii "garbage") = Outcome.fatal Fatal.invalidPriorityValue
        ∧ parseSyslogMessage (ascii "garbage") = Outcome.fatal Fatal.invalidPriorityValue
        ∧ (∀ b, parseSyslogMessage (ascii "garbage") ≠ Outcome.ok b)
        ∧ ((62 : Byte) ∉ ascii "garbage"
            → slice (ascii "garbage") 1 (strings.Index (ascii "garbage") 62) = none)) :=
  ⟨by decide, C5_missing_delimiters (ascii "garbage") (by decide)⟩

/-- C6 (defect in the code): a decode failure is not returned as an error value.
On `garbage` the decoder calls `logger.Fatalf`, which ends the process, so
`handleMessage` does not return and no later datagram is handled; the same holds
for a priority out of range, `<999>...`. -/
theorem C6_decode_failure_ends_process :
    parseSyslogMessage (ascii "garbage") = Outcome.fatal Fatal.invalidPriorityValue
      ∧ handleMessage (ascii "garbage") = Handled.exits Fatal.invalidPriorityValue
      ∧ (∀ err, parseSyslogMessage (ascii "garbage") ≠ Outcome.error err)
      ∧ handleMessage (ascii "<999>...") = Handled.exits (Fatal.priorityOutOfRange 999) := by
  have h : parseSyslogMessage (ascii "garbage") = Outcome.fatal Fatal.invalidPriorityValue := by
    decide
  refine ⟨h, by decide, ?_, by decide⟩
  intro err he
  rw [h] at he
  exact Outcome.noConfusion he

/-- C7 (defect in the code): on `<13>Apr 20 15:04:05`, a priority in range
followed by a 15-byte timestamp and nothing else, the lenient fallback does not
apply. The first space of the whole input is the one inside the timestamp, so
the host name is `Apr`, not `unknown`, and the message is the rest of the
timestamp, not empty. -/
theorem C7_timestamp_space_skips_fallback :
    (ascii "Apr 20 15:04:05").length = 15 ∧ (32 : Byte) ∉ ascii ""
      ∧ parseSyslogMessage.parsed
          (ascii "<" ++ decimal 13 ++ ascii ">" ++ ascii "Apr 20 15:04:05" ++ ascii "")
        = Outcome.ok ⟨5, 1, ascii "Apr", ascii "20 15:04:05"⟩
      ∧ parseSyslogMessage (ascii "<13>Apr 20 15:04:05")
        = Outcome.ok (ascii ("\x7b\"facility\":1,\"hostname\":\"Apr\"," ++
            "\"message\":\"20 15:04:05\",\"severity\":5\x7d"))
      ∧ ascii "Apr" ≠ ascii "unknown" ∧ ascii "20 15:04:05" ≠ [] := by
  set_option maxRecDepth 100000 in decide

/-- The fallback of lines 169 and 170 is reached when the whole input holds no
space: for a priority `p` in `[0,191]` and a text `r` without a space, the
decoder yields the host name `unknown` and an empty message on `<p>r`. -/
theorem fallback_without_space (p : Nat) (r : GoString) (hp : p ≤ 191)
    (h2 : (32 : Byte) ∉ r) :
    parseSyslogMessage.parsed (ascii "<" ++ decimal p ++ ascii ">" ++ r)
        = Outcome.ok ⟨((p % 8 : Nat) : Int), ((p / 8 : Nat) : Int), ascii "unknown", []⟩ := by
  obtain ⟨_, _, h32, _⟩ := decimal_small p (by omega)
  have hmsg : ascii "<" ++ decimal p ++ ascii ">" ++ r = 60 :: decimal p ++ 62 :: r := by
    have : ascii ">" = [62] := by decide
    rw [ascii_lt, this]
    simp
  have hns : (32 : Byte) ∉ (60 :: decimal p ++ 62 :: r) := by
    intro hm
    simp only [List.cons_append, List.mem_cons, List.mem_append] at hm
    rcases hm with e | e | e | e
    · exact absurd e (by decide)
    · exact h32 e
    · exact absurd e (by decide)
    · exact h2 e
  rw [hmsg, parsed_decimal p hp, hostAndMessage_no_space _ _ _ hns]
  simp

/-- C8: when the decoder yields a record, the input is `<`, a text `t` without
`>`, `>` and a rest, `strconv.Atoi` reads `t` as an integer `n`, the severity
is in `[0,7]`, the facility in `[0,23]`, and `n = facility * 8 + severity`; and
on no input at all does the severity check of line 162 fail. -/
theorem C8_priority_invariant (msg : GoString) (r : Parsed)
    (h : parseSyslogMessage.parsed msg = Outcome.ok r) :
    (∃ t rest, msg = 60 :: t ++ 62 :: rest ∧ (62 : Byte) ∉ t
        ∧ slice msg 1 (strings.Index msg 62) = some t
        ∧ (strconv.Atoi t).2 = none
        ∧ (strconv.Atoi t).1 = r.facility * 8 + r.severity)
      ∧ (0 ≤ r.severity ∧ r.severity ≤ 7) ∧ (0 ≤ r.facility ∧ r.facility ≤ 23)
      ∧ ∀ (m : GoString) (v : Int),
          parseSyslogMessage.parsed m ≠ Outcome.fatal (Fatal.invalidSeverity v) := by
  have never : ∀ (m : GoString) (v : Int),
      parseSyslogMessage.parsed m ≠ Outcome.fatal (Fatal.invalidSeverity v) := by
    intro m v hm
    by_cases hg : strings.HasPrefix m (ascii "<") = true ∧ strings.Contains m 62 = true
    · obtain ⟨t, rest, e, hn⟩ := header_decompose m hg.1 hg.2
      rw [e, parsed_header t rest hn] at hm
      cases hA : (strconv.Atoi t).2 with
      | some e2 =>
        rw [hA] at hm
        cases hm
      | none =>
        rw [hA] at hm
        simp only [] at hm
        split_ifs at hm
        · cases hm
        · exact hostAndMessage_not_fatal _ _ _ _ hm
    · have hg2 : strings.HasPrefix m (ascii "<") = false ∨ strings.Contains m 62 = false := by
        by_cases h1 : strings.HasPrefix m (ascii "<") = true
        · right
          rw [Bool.eq_false_iff]
          exact fun h2 => hg ⟨h1, h2⟩
        · left
          rw [Bool.eq_false_iff]
          exact h1
      rw [parsed_guard m hg2] at hm
      cases hm
  have hg : strings.HasPrefix msg (ascii "<") = true ∧ strings.Contains msg 62 = true := by
    by_contra hg
    have hg2 : strings.HasPrefix msg (ascii "<") = false ∨ strings.Contains msg 62 = false := by
      by_cases h1 : strings.HasPrefix msg (ascii "<") = true
      · right
        rw [Bool.eq_false_iff]
        exact fun h2 => hg ⟨h1, h2⟩
      · left
        rw [Bool.eq_false_iff]
        exact h1
    rw [parsed_guard msg hg2] at h
    cases h
  obtain ⟨t, rest, e, hn⟩ := header_decompose msg hg.1 hg.2
  have hsl : slice msg 1 (strings.Index msg 62) = some t := by
    rw [e, header_index t rest hn, header_slice t rest]
  rw [e, parsed_header t rest hn] at h
  cases hA : (strconv.Atoi t).2 with
  | some e2 =>
    rw [hA] at h
    cases h
  | none =>
    rw [hA] at h
    simp only [] at h
    by_cases hr : (strconv.Atoi t).1 < 0 ∨ (strconv.Atoi t).1 > 191
    · rw [if_pos hr] at h
      cases h
    · rw [if_neg hr] at h
      obtain ⟨hs, hf⟩ := hostAndMessage_fields _ _ _ _ h
      have g1 : 0 ≤ r.severity ∧ r.severity ≤ 7 := by
        rw [hs]
        constructor <;> omega
      have g2 : 0 ≤ r.facility ∧ r.facility ≤ 23 := by
        rw [hf]
        constructor <;> omega
      have g3 : (strconv.Atoi t).1 = r.facility * 8 + r.severity := by
        rw [hs, hf]
        omega
      exact ⟨⟨t, rest, e, hn, hsl, hA, g3⟩, g1, g2, never⟩

/-- C8 at `<13>Apr 20 15:04:05 hostname myapp: message`, whose record has
severity 5 and facility 1. -/
theorem C8_priority_invariant_witness :
    parseSyslogMessage.parsed (ascii "<13>Apr 20 15:04:05 hostname myapp: message")
        = Outcome.ok ⟨5, 1, ascii "Apr", ascii "20 15:04:05 hostname myapp: message"⟩
      ∧ ((∃ t rest, ascii "<13>Apr 20 15:04:05 hostname myapp: message" = 60 :: t ++ 62 :: rest
            ∧ (62 : Byte) ∉ t
            ∧ slice (ascii "<13>Apr 20 15:04:05 hostname myapp: message") 1
                (strings.Index (ascii "<13>Apr 20 15:04:05 hostname myapp: message") 62) = some t
            ∧ (strconv.Atoi t).2 = none
            ∧ (strconv.Atoi t).1 = (1 : Int) * 8 + 5)
        ∧ ((0 : Int) ≤ 5 ∧ (5 : Int) ≤ 7) ∧ ((0 : Int) ≤ 1 ∧ (1 : Int) ≤ 23)
        ∧ ∀ (m : GoString) (v : Int),
            parseSyslogMessage.parsed m ≠ Outcome.fatal (Fatal.invalidSeverity v)) :=
  have h : parseSyslogMessage.parsed (ascii "<13>Apr 20 15:04:05 hostname myapp: message")
      = Outcome.ok ⟨5, 1, ascii "Apr", ascii "20 15:04:05 hostname myapp: message"⟩ := by
    set_option maxRecDepth 100000 in decide
  ⟨h, C8_priority_invariant _ _ h⟩

/-! ## What `strconv.Atoi` accepts -/

set_option maxRecDepth 100000 in
theorem byte_digit : ∀ ch : Byte, ¬ (ch - 48 > 9) → isDigit ch = true := by
  decide

theorem atoiFastLoop_digits (s : GoString) (n m : Int)
    (h : strconv.atoiFastLoop s n = some m) : s.all isDigit = true := by
  induction s generalizing n with
  | nil => rfl
  | cons ch rest ih =>
    simp only [strconv.atoiFastLoop] at h
    split_ifs at h with hd
    rw [List.all_cons, byte_digit ch hd, ih _ h]
    rfl

theorem parseUintLoop_range (s : GoString) (n : Nat)
    (h : (strconv.parseUintLoop s n).2 = some strconv.NumError.errRange) :
    (strconv.parseUintLoop s n).1 = 2 ^ 64 - 1 := by
  induction s generalizing n with
  | nil => simp [strconv.parseUintLoop] at h
  | cons c rest ih =>
    simp only [strconv.parseUintLoop] at h ⊢
    split_ifs at h ⊢ with h1 h2 h3
    all_goals first | rfl | exact ih _ h | (simp at h)

theorem parseUintLoop_none (s : GoString) (n : Nat)
    (h : (strconv.parseUintLoop s n).2 = none) : s.all isDigit = true := by
  induction s generalizing n with
  | nil => rfl
  | cons c rest ih =>
    simp only [strconv.parseUintLoop] at h
    split_ifs at h with h1 h2 h3
    rw [List.all_cons, ih _ h]
    simp [isDigit, h1.1, h1.2]

theorem isDigits_of (s : GoString) (hne : s ≠ []) (ha : s.all isDigit = true) :
    isDigits s = true := by
  unfold isDigits
  rw [ha]
  cases s with
  | nil => exact absurd rfl hne
  | cons a b => rfl

theorem isSignedDigits_plain (s : GoString) (hd : isDigits s = true) :
    isSignedDigits s = true := by
  unfold isSignedDigits
  simp [hd]

theorem isSignedDigits_sign (c : Byte) (rest : GoString) (hc : c = 43 ∨ c = 45)
    (hd : isDigits rest = true) : isSignedDigits (c :: rest) = true := by
  unfold isSignedDigits
  rcases hc with e | e <;> simp [e, hd]

theorem parseUint_none (s : GoString) (h : (strconv.ParseUint s).2 = none) :
    isDigits s = true := by
  unfold strconv.ParseUint at h
  by_cases h0 : s = []
  · rw [if_pos h0] at h
    simp at h
  · rw [if_neg h0] at h
    exact isDigits_of s h0 (parseUintLoop_none s 0 h)

theorem parseUint_range (s : GoString)
    (h : (strconv.ParseUint s).2 = some strconv.NumError.errRange) :
    (strconv.ParseUint s).1 = 2 ^ 64 - 1 := by
  unfold strconv.ParseUint at h ⊢
  by_cases h0 : s = []
  · rw [if_pos h0] at h
    simp at h
  · rw [if_neg h0] at h ⊢
    exact parseUintLoop_range _ _ h

theorem parseInt_tail (neg : Bool) (r : Nat × Option strconv.NumError)
    (hv : r.2 = some strconv.NumError.errRange → r.1 = 2 ^ 64 - 1)
    (h : (if r.2 = some strconv.NumError.errSyntax then
            ((0 : Int), some strconv.NumError.errSyntax)
          else if !neg && decide (r.1 ≥ 2 ^ (strconv.IntSize - 1)) then
            (((2 ^ (strconv.IntSize - 1) : Nat) : Int) - 1, some strconv.NumError.errRange)
          else if neg && decide (r.1 > 2 ^ (strconv.IntSize - 1)) then
            (-((2 ^ (strconv.IntSize - 1) : Nat) : Int), some strconv.NumError.errRange)
          else (if neg then -(r.1 : Int) else (r.1 : Int), none)).2 = none) :
    r.2 = none := by
  obtain ⟨v, e⟩ := r
  cases e with
  | none => rfl
  | some e =>
    exfalso
    cases e with
    | errSyntax => simp at h
    | errRange =>
      have hv2 : v = 2 ^ 64 - 1 := hv rfl
      subst hv2
      cases neg <;> simp [strconv.IntSize] at h

theorem parseInt_none (s : GoString) (h : (strconv.ParseInt s).2 = none) :
    isSignedDigits s = true := by
  cases s with
  | nil => simp [strconv.ParseInt] at h
  | cons c rest =>
    have hr := parseInt_tail (decide (c = 45))
      (strconv.ParseUint (if c = 43 ∨ c = 45 then rest else c :: rest))
      (parseUint_range _) h
    have hd := parseUint_none _ hr
    by_cases hs : c = 43 ∨ c = 45
    · rw [if_pos hs] at hd
      exact isSignedDigits_sign c rest hs hd
    · rw [if_neg hs] at hd
      exact isSignedDigits_plain _ hd

theorem atoi_fast_tail (c : Byte) (body : GoString)
    (h : (if body.length < 1 then ((0 : Int), some strconv.NumError.errSyntax)
          else
            match strconv.atoiFastLoop body 0 with
            | none => (0, some strconv.NumError.errSyntax)
            | some n => (if c = 45 then -n else n, none)).2 = none) :
    isDigits body = true := by
  by_cases hb : body.length < 1
  · rw [if_pos hb] at h
    simp at h
  · rw [if_neg hb] at h
    cases hn : strconv.atoiFastLoop body 0 with
    | none =>
      rw [hn] at h
      simp at h
    | some n =>
      refine isDigits_of body ?_ (atoiFastLoop_digits _ _ _ hn)
      intro e
      rw [e] at hb
      simp at hb

/-- When `strconv.Atoi` accepts a text, the text is a non-empty run of decimal
digits with at most one sign in front. -/
theorem atoi_none (s : GoString) (h : (strconv.Atoi s).2 = none) :
    isSignedDigits s = true := by
  unfold strconv.Atoi at h
  by_cases hl : 0 < s.length ∧ s.length < 19
  · rw [if_pos hl] at h
    cases s with
    | nil => simp at hl
    | cons c rest =>
      have hd := atoi_fast_tail c (if c = 45 ∨ c = 43 then rest else c :: rest) h
      by_cases hs : c = 45 ∨ c = 43
      · rw [if_pos hs] at hd
        exact isSignedDigits_sign c rest hs.symm hd
      · rw [if_neg hs] at hd
        exact isSignedDigits_plain _ hd
  · rw [if_neg hl] at h
    exact parseInt_none s h

/-- C9 as stated fails: `+5` and `-0` are not made of digits only, and the
decoder yields a record on `<+5>x` and on `<-0>x y`, because `strconv.Atoi`
reads a sign. -/
theorem C9_signed_priority_counterexample :
    isDigits (ascii "+5") = false ∧ isDigits (ascii "-0") = false
      ∧ parseSyslogMessage (ascii "<+5>x")
        = Outcome.ok (ascii ("\x7b\"facility\":0,\"hostname\":\"unknown\"," ++
            "\"message\":\"\",\"severity\":5\x7d"))
      ∧ parseSyslogMessage (ascii "<-0>x y")
        = Outcome.ok (ascii ("\x7b\"facility\":0,\"hostname\":\"x\"," ++
            "\"message\":\"y\",\"severity\":0\x7d")) := by
  set_option maxRecDepth 100000 in decide

/-- C9, amended: on `<t>rest`, where `t` holds no `>` and is not a non-empty run
of the digits `0` to `9` with at most one sign `+` or `-` in front, the decoder
ends in the fatal failure of line 152 and yields no record. -/
theorem C9_malformed_priority_no_record (t rest : GoString) (h62 : (62 : Byte) ∉ t)
    (hbad : isSignedDigits t = false) :
    (∃ e, parseSyslogMessage (ascii "<" ++ t ++ ascii ">" ++ rest)
        = Outcome.fatal (Fatal.atoiError e))
      ∧ ∀ b, parseSyslogMessage (ascii "<" ++ t ++ ascii ">" ++ rest) ≠ Outcome.ok b := by
  have hmsg : ascii "<" ++ t ++ ascii ">" ++ rest = 60 :: t ++ 62 :: rest := by
    have : ascii ">" = [62] := by decide
    rw [ascii_lt, this]
    simp
  have key : ∃ e, parseSyslogMessage (ascii "<" ++ t ++ ascii ">" ++ rest)
      = Outcome.fatal (Fatal.atoiError e) := by
    rw [hmsg]
    have hh := parsed_header t rest h62
    cases hA : (strconv.Atoi t).2 with
    | some e =>
      rw [hA] at hh
      exact ⟨e, parseWith_of_fatal id _ _ hh⟩
    | none =>
      have := atoi_none t hA
      rw [hbad] at this
      cases this
  refine ⟨key, ?_⟩
  obtain ⟨e, he⟩ := key
  intro b hb
  rw [he] at hb
  exact Outcome.noConfusion hb

/-- C9, amended, at `<1a>x`. -/
theorem C9_malformed_priority_no_record_witness :
    (62 : Byte) ∉ ascii "1a" ∧ isSignedDigits (ascii "1a") = false
      ∧ ((∃ e, parseSyslogMessage (ascii "<" ++ ascii "1a" ++ ascii ">" ++ ascii "x")
            = Outcome.fatal (Fatal.atoiError e))
        ∧ ∀ b, parseSyslogMessage (ascii "<" ++ ascii "1a" ++ ascii ">" ++ ascii "x")
            ≠ Outcome.ok b) :=
  ⟨by decide, by decide,
    C9_malformed_priority_no_record (ascii "1a") (ascii "x") (by decide) (by decide)⟩

/-! ## The order of the keys in the JSON object -/

theorem strings_le_total (a b : GoString) : strings.le a b = true ∨ strings.le b a = true := by
  induction a generalizing b with
  | nil => left; cases b <;> rfl
  | cons x xs ih =>
    cases b with
    | nil => right; rfl
    | cons y ys =>
      simp only [strings.le]
      rcases lt_trichotomy x y with h | h | h
      · left; simp [h]
      · subst h
        simpa using ih ys
      · right; simp [h]

theorem strings_le_trans (a b c : GoString) (h1 : strings.le a b = true)
    (h2 : strings.le b c = true) : strings.le a c = true := by
  induction a generalizing b c with
  | nil => cases c <;> rfl
  | cons x xs ih =>
    cases b with
    | nil => simp [strings.le] at h1
    | cons y ys =>
      cases c with
      | nil => simp [strings.le] at h2
      | cons z zs =>
        simp only [strings.le] at h1 h2 ⊢
        by_cases hxy : x < y
        · by_cases hyz : y < z
          · simp [lt_trans hxy hyz]
          · rw [if_neg hyz] at h2
            by_cases hzy : z < y
            · simp [hzy] at h2
            · have : y = z := le_antisymm (not_lt.mp hzy) (not_lt.mp hyz)
              subst this
              simp [hxy]
        · rw [if_neg hxy] at h1
          by_cases hyx : y < x
          · simp [hyx] at h1
          · have : x = y := le_antisymm (not_lt.mp hyx) (not_lt.mp hxy)
            subst this
            rw [if_neg hyx] at h1
            by_cases hxz : x < z
            · simp [hxz]
            · rw [if_neg hxz] at h2 ⊢
              by_cases hzx : z < x
              · simp [hzx] at h2
              · rw [if_neg hzx] at h2 ⊢
                exact ih ys zs h1 h2

theorem strings_le_antisymm (a b : GoString) (h1 : strings.le a b = true)
    (h2 : strings.le b a = true) : a = b := by
  induction a generalizing b with
  | nil =>
    cases b with
    | nil => rfl
    | cons y ys => simp [strings.le] at h2
  | cons x xs ih =>
    cases b with
    | nil => simp [strings.le] at h1
    | cons y ys =>
      simp only [strings.le] at h1 h2
      by_cases hxy : x < y
      · have hyx : ¬ y < x := not_lt.mpr (le_of_lt hxy)
        simp [hxy, hyx] at h2
      · rw [if_neg hxy] at h1 h2
        by_cases hyx : y < x
        · simp [hyx] at h1
        · rw [if_neg hyx] at h1 h2
          have : x = y := le_antisymm (not_lt.mp hyx) (not_lt.mp hxy)
          subst this
          rw [ih ys h1 h2]

/-- With distinct keys, the sorted list of entries does not depend on the order
the entries arrive in. -/
theorem sort_perm (l₁ l₂ : List (GoString × json.Value)) (hp : l₁.Perm l₂)
    (hn : (l₂.map Prod.fst).Nodup) :
    l₁.insertionSort json.keyLe = l₂.insertionSort json.keyLe := by
  let R : GoString × json.Value → GoString × json.Value → Prop :=
    fun a b => json.keyLe a b ∧ a.1 ≠ b.1
  haveI : IsAntisymm (GoString × json.Value) R :=
    ⟨fun a b h1 h2 => absurd (strings_le_antisymm a.1 b.1 h1.1 h2.1) h1.2⟩
  haveI : IsTotal (GoString × json.Value) json.keyLe :=
    ⟨fun a b => strings_le_total a.1 b.1⟩
  haveI : IsTrans (GoString × json.Value) json.keyLe :=
    ⟨fun a b c h1 h2 => strings_le_trans a.1 b.1 c.1 h1 h2⟩
  have hs : ∀ l : List (GoString × json.Value), l.Perm l₂ →
      List.Sorted R (l.insertionSort json.keyLe) := by
    intro l hl
    have h1 : List.Sorted json.keyLe (l.insertionSort json.keyLe) :=
      List.sorted_insertionSort json.keyLe l
    have h2 : ((l.insertionSort json.keyLe).map Prod.fst).Nodup :=
      (((List.perm_insertionSort json.keyLe l).trans hl).map Prod.fst).nodup_iff.mpr hn
    have h3 : List.Pairwise (fun a b : GoString × json.Value => a.1 ≠ b.1)
        (l.insertionSort json.keyLe) := List.pairwise_map.mp h2
    exact List.Pairwise.and h1 h3
  have hperm : (l₁.insertionSort json.keyLe).Perm (l₂.insertionSort json.keyLe) :=
    ((List.perm_insertionSort json.keyLe l₁).trans hp).trans
      (List.perm_insertionSort json.keyLe l₂).symm
  exact List.eq_of_perm_of_sorted hperm (hs l₁ hp) (hs l₂ (List.Perm.refl _))

theorem parsedEntries_keys (p : Parsed) : ((parsedEntries p).map Prod.fst).Nodup := by
  show [ascii "severity", ascii "facility", ascii "hostname", ascii "message"].Nodup
  decide

theorem parsedEntries_sorted (p : Parsed) :
    (parsedEntries p).insertionSort json.keyLe
      = [(ascii "facility", json.Value.int p.facility),
         (ascii "hostname", json.Value.str p.hostname),
         (ascii "message", json.Value.str p.message),
         (ascii "severity", json.Value.int p.severity)] := by
  have h1 : strings.le (ascii "hostname") (ascii "message") = true := by decide
  have h2 : strings.le (ascii "facility") (ascii "hostname") = true := by decide
  have h3 : strings.le (ascii "facility") (ascii "message") = true := by decide
  have h4 : strings.le (ascii "severity") (ascii "facility") = false := by decide
  have h5 : strings.le (ascii "severity") (ascii "hostname") = false := by decide
  have h6 : strings.le (ascii "severity") (ascii "message") = false := by decide
  simp [parsedEntries, List.insertionSort, List.orderedInsert, json.keyLe, h1, h2, h3, h4, h5, h6]

theorem marshal_perm (iter : List (GoString × json.Value) → List (GoString × json.Value))
    (h : ∀ l, (iter l).Perm l) (p : Parsed) :
    json.Marshal (iter (parsedEntries p)) = json.Marshal (parsedEntries p) := by
  unfold json.Marshal
  rw [sort_perm _ _ (h (parsedEntries p)) (parsedEntries_keys p)]

theorem parseWith_perm (iter : List (GoString × json.Value) → List (GoString × json.Value))
    (h : ∀ l, (iter l).Perm l) (msg : GoString) :
    parseSyslogMessageWith iter msg = parseSyslogMessage msg := by
  unfold parseSyslogMessage parseSyslogMessageWith
  cases parseSyslogMessage.parsed msg with
  | ok p =>
    simp only []
    rw [marshal_perm iter h p]
    rfl
  | error err => rfl
  | fatal f => rfl
  | panic => rfl

/-- C10: the decoder is deterministic. Whatever the orders `iter₁` and `iter₂` in
which two runs iterate the map `parsed`, the two calls on the same input end the
same way, and when they yield a record the two outputs are the same bytes: one
JSON object with the keys in the order facility, hostname, message, severity. -/
theorem C10_deterministic_output
    (iter₁ iter₂ : List (GoString × json.Value) → List (GoString × json.Value))
    (h₁ : ∀ l, (iter₁ l).Perm l) (h₂ : ∀ l, (iter₂ l).Perm l) (msg : GoString) :
    parseSyslogMessageWith iter₁ msg = parseSyslogMessageWith iter₂ msg
      ∧ ∀ p, parseSyslogMessage.parsed msg = Outcome.ok p →
          parseSyslogMessageWith iter₁ msg
            = Outcome.ok ((123 : Byte) :: json.encodeMembers
                [(ascii "facility", json.Value.int p.facility),
                 (ascii "hostname", json.Value.str p.hostname),
                 (ascii "message", json.Value.str p.message),
                 (ascii "severity", json.Value.int p.severity)] ++ [125]) := by
  refine ⟨by rw [parseWith_perm iter₁ h₁, parseWith_perm iter₂ h₂], ?_⟩
  intro p hp
  rw [parseWith_of_parsed iter₁ msg p hp, marshal_perm iter₁ h₁ p]
  unfold json.Marshal
  rw [parsedEntries_sorted p]

/-- C10 with the map iterated in the order of its literal and in the reverse
order, on the datagram of the repository's test. -/
theorem C10_deterministic_output_witness :
    (∀ l : List (GoString × json.Value), (id l).Perm l)
      ∧ (∀ l : List (GoString × json.Value), (List.reverse l).Perm l)
      ∧ (parseSyslogMessageWith id (ascii "<13>Apr 20 15:04:05 hostname myapp: message")
          = parseSyslogMessageWith List.reverse
              (ascii "<13>Apr 20 15:04:05 hostname myapp: message")
        ∧ ∀ p, parseSyslogMessage.parsed (ascii "<13>Apr 20 15:04:05 hostname myapp: message")
              = Outcome.ok p →
            parseSyslogMessageWith id (ascii "<13>Apr 20 15:04:05 hostname myapp: message")
              = Outcome.ok ((123 : Byte) :: json.encodeMembers
                  [(ascii "facility", json.Value.int p.facility),
                   (ascii "hostname", json.Value.str p.hostname),
                   (ascii "message", json.Value.str p.message),
                   (ascii "severity", json.Value.int p.severity)] ++ [125])) :=
  ⟨fun l => List.Perm.refl l, fun l => List.reverse_perm l,
    C10_deterministic_output id List.reverse (fun l => List.Perm.refl l)
      (fun l => List.reverse_perm l) (ascii "<13>Apr 20 15:04:05 hostname myapp: message")⟩

/-! ## Where the host name is cut, and where the cut is out of range -/

theorem indexByte_lt_length (s : GoString) (c : Byte) :
    strings.IndexByte s c < (s.length : Int) ∨ s = [] := by
  by_cases h : c ∈ s
  · obtain ⟨pre, post, e, hn⟩ := exists_first s c h
    left
    rw [e, indexByte_append_cons pre post c hn]
    simp only [List.length_append, List.length_cons]
    push_cast
    omega
  · rw [indexByte_of_not_mem s c h]
    cases s with
    | nil => right; rfl
    | cons a b =>
      left
      simp only [List.length_cons]
      push_cast
      omega

/-- The cut of lines 171 to 173 panics exactly when the first space of the
input is at an offset below 4. -/
theorem hostAndMessage_panic_iff (msg : GoString) (sev fac : Int) :
    hostAndMessage msg sev fac = Outcome.panic
      ↔ (0 ≤ strings.Index msg 32 ∧ strings.Index msg 32 < 4) := by
  have hge : -1 ≤ strings.Index msg 32 := indexByte_ge msg 32
  have hlt : strings.Index msg 32 < (msg.length : Int) ∨ msg = [] :=
    indexByte_lt_length msg 32
  unfold hostAndMessage
  by_cases hi : strings.Index msg 32 = -1
  · rw [hi]
    simp
  · rw [if_pos hi]
    have hlen : strings.Index msg 32 < (msg.length : Int) := by
      rcases hlt with h | h
      · exact h
      · exfalso
        apply hi
        rw [h]
        rfl
    by_cases h4 : 4 ≤ strings.Index msg 32
    · have hs1 : ∃ h, slice msg 4 (strings.Index msg 32) = some h := by
        unfold slice
        rw [if_pos ⟨by omega, h4, by omega⟩]
        exact ⟨_, rfl⟩
      have hs2 : ∃ m, sliceFrom msg (strings.Index msg 32 + 1) = some m := by
        unfold sliceFrom slice
        rw [if_pos ⟨by omega, by omega, le_refl _⟩]
        exact ⟨_, rfl⟩
      obtain ⟨h, e1⟩ := hs1
      obtain ⟨m, e2⟩ := hs2
      rw [e1, e2]
      constructor
      · intro hc
        cases hc
      · intro hc
        omega
    · have hs1 : slice msg 4 (strings.Index msg 32) = none := by
        unfold slice
        rw [if_neg (by omega)]
      rw [hs1]
      constructor
      · intro _
        constructor <;> omega
      · intro _
        rfl

theorem isDigits_spec (t : GoString) (h : isDigits t = true) :
    t ≠ [] ∧ ∀ b ∈ t, isDigit b = true := by
  unfold isDigits at h
  rw [Bool.and_eq_true] at h
  refine ⟨?_, ?_⟩
  · intro e
    rw [e] at h
    simp at h
  · exact List.all_eq_true.mp h.2

set_option maxRecDepth 100000 in
theorem digit_facts : ∀ d : Byte, isDigit d = true →
    (d ≠ 32 ∧ d ≠ 62 ∧ d ≠ 43 ∧ d ≠ 45 ∧ (strconv.Atoi [d]).2 = none
      ∧ 0 ≤ (strconv.Atoi [d]).1 ∧ (strconv.Atoi [d]).1 ≤ 191) := by
  decide

/-- A text `strconv.Atoi` accepts is not empty, holds no space, and when it
is one byte long that byte is a digit. -/
theorem isSignedDigits_spec (t : GoString) (h : isSignedDigits t = true) :
    t ≠ [] ∧ (32 : Byte) ∉ t ∧ ∀ d, t = [d] → isDigit d = true := by
  unfold isSignedDigits at h
  rw [Bool.or_eq_true] at h
  rcases h with h | h
  · obtain ⟨hne, hall⟩ := isDigits_spec t h
    refine ⟨hne, ?_, ?_⟩
    · intro hm
      exact (digit_facts 32 (hall 32 hm)).1 rfl
    · intro d e
      exact hall d (by rw [e]; simp)
  · cases t with
    | nil => simp at h
    | cons c rest =>
      simp only [Bool.and_eq_true, Bool.or_eq_true, decide_eq_true_eq] at h
      obtain ⟨hc, hd⟩ := h
      obtain ⟨hne, hall⟩ := isDigits_spec rest hd
      refine ⟨by simp, ?_, ?_⟩
      · intro hm
        rcases List.mem_cons.mp hm with e | e
        · rcases hc with hc | hc <;> rw [hc] at e <;> exact absurd e (by decide)
        · exact (digit_facts 32 (hall 32 e)).1 rfl
      · intro d e
        exact absurd (List.cons.inj e).2 hne

/-- Either the decoder stops in one of its fatal failures, or the input is `<`,
a text `t` that `strconv.Atoi` accepts, `>` and a rest, and the outcome is that
of the cut of lines 169 to 174. -/
theorem parsed_cases (msg : GoString) :
    (∃ f, parseSyslogMessage.parsed msg = Outcome.fatal f)
      ∨ ∃ t rest sev fac, msg = 60 :: t ++ 62 :: rest ∧ (62 : Byte) ∉ t
          ∧ isSignedDigits t = true
          ∧ parseSyslogMessage.parsed msg = hostAndMessage msg sev fac := by
  by_cases hg : strings.HasPrefix msg (ascii "<") = true ∧ strings.Contains msg 62 = true
  · obtain ⟨t, rest, e, hn⟩ := header_decompose msg hg.1 hg.2
    have hh := parsed_header t rest hn
    rw [← e] at hh
    cases hA : (strconv.Atoi t).2 with
    | some e2 =>
      rw [hA] at hh
      exact Or.inl ⟨_, hh⟩
    | none =>
      rw [hA] at hh
      simp only [] at hh
      by_cases hr : (strconv.Atoi t).1 < 0 ∨ (strconv.Atoi t).1 > 191
      · rw [if_pos hr] at hh
        exact Or.inl ⟨_, hh⟩
      · rw [if_neg hr] at hh
        exact Or.inr ⟨t, rest, _, _, e, hn, atoi_none t hA, hh⟩
  · have hg2 : strings.HasPrefix msg (ascii "<") = false ∨ strings.Contains msg 62 = false := by
      by_cases h1 : strings.HasPrefix msg (ascii "<") = true
      · right
        rw [Bool.eq_false_iff]
        exact fun h2 => hg ⟨h1, h2⟩
      · left
        rw [Bool.eq_false_iff]
        exact h1
    exact Or.inl ⟨_, parsed_guard msg hg2⟩

theorem parse_eq_panic_iff (msg : GoString) :
    parseSyslogMessage msg = Outcome.panic ↔ parseSyslogMessage.parsed msg = Outcome.panic := by
  unfold parseSyslogMessage parseSyslogMessageWith
  cases parseSyslogMessage.parsed msg with
  | ok p => simp only []; constructor <;> intro h <;> cases h
  | error err => constructor <;> intro h <;> cases h
  | fatal f => constructor <;> intro h <;> cases h
  | panic => simp

theorem index_digit_space (d : Byte) (rest : GoString) (h32 : d ≠ 32) :
    strings.Index (60 :: d :: 62 :: 32 :: rest) 32 = 3 := by
  have hn : (32 : Byte) ∉ [60, d, 62] := by
    intro hm
    simp only [List.mem_cons, List.mem_singleton, List.mem_nil_iff, or_false] at hm
    rcases hm with e1 | e1 | e1
    · exact absurd e1 (by decide)
    · exact h32 e1.symm
    · exact absurd e1 (by decide)
  exact indexByte_append_cons [60, d, 62] rest 32 hn

theorem index_after_header (t rest : GoString) (h32 : (32 : Byte) ∉ t)
    (hi : 0 ≤ strings.Index (60 :: t ++ 62 :: rest) 32)
    (h4 : strings.Index (60 :: t ++ 62 :: rest) 32 < 4) (hne : t ≠ []) :
    t.length = 1 ∧ ∃ q, rest = 32 :: q := by
  have hA : (32 : Byte) ∉ (60 :: t ++ [62]) := by
    intro hm
    simp only [List.cons_append, List.mem_cons, List.mem_append, List.mem_singleton,
      List.mem_nil_iff, or_false] at hm
    rcases hm with e | e | e
    · exact absurd e (by decide)
    · exact h32 e
    · exact absurd e (by decide)
  have hsplit : (60 : Byte) :: t ++ 62 :: rest = (60 :: t ++ [62]) ++ rest := by simp
  have hlen : 1 ≤ t.length := by
    cases t with
    | nil => exact absurd rfl hne
    | cons a b => simp
  by_cases hm : (32 : Byte) ∈ rest
  · obtain ⟨p, q, e, hn⟩ := exists_first rest 32 hm
    have hAp : (32 : Byte) ∉ ((60 :: t ++ [62]) ++ p) := by
      intro h
      rcases List.mem_append.mp h with h | h
      · exact hA h
      · exact hn h
    have hidx : strings.Index (60 :: t ++ 62 :: rest) 32
        = (((60 :: t ++ [62]) ++ p).length : Int) := by
      have := indexByte_append_cons ((60 :: t ++ [62]) ++ p) q 32 hAp
      unfold strings.Index
      rw [hsplit, e]
      rw [List.append_assoc] at this
      exact this
    rw [hidx] at h4
    simp only [List.cons_append, List.length_cons, List.length_append, List.length_nil] at h4
    have hp : p.length = 0 := by omega
    have ht : t.length = 1 := by omega
    have hp2 : p = [] := List.length_eq_zero.mp hp
    refine ⟨ht, q, ?_⟩
    rw [e, hp2]
    rfl
  · exfalso
    have hnm : (32 : Byte) ∉ (60 :: t ++ 62 :: rest) := by
      rw [hsplit]
      intro h
      rcases List.mem_append.mp h with h | h
      · exact hA h
      · exact hm h
    have := indexByte_of_not_mem _ 32 hnm
    unfold strings.Index at hi
    omega

/-- C14: the decoder panics on an out-of-range slice exactly on the inputs that
begin with `<`, one decimal digit, `>` and a space. On every other input no
slice is out of range; in particular there is no panic when the input holds no
space or its first space is at offset 4 or later. -/
theorem C14_panic_exactly_on_digit_space (msg : GoString) :
    (parseSyslogMessage msg = Outcome.panic
        ↔ ∃ d rest, isDigit d = true ∧ msg = 60 :: d :: 62 :: 32 :: rest)
      ∧ (((32 : Byte) ∉ msg ∨ 4 ≤ strings.Index msg 32) →
          parseSyslogMessage msg ≠ Outcome.panic) := by
  have main : parseSyslogMessage msg = Outcome.panic
      ↔ ∃ d rest, isDigit d = true ∧ msg = 60 :: d :: 62 :: 32 :: rest := by
    rw [parse_eq_panic_iff]
    constructor
    · intro hp
      rcases parsed_cases msg with ⟨f, hf⟩ | ⟨t, rest, sev, fac, e, h62, hsd, hh⟩
      · rw [hf] at hp
        cases hp
      · rw [hh] at hp
        obtain ⟨h0, h4⟩ := (hostAndMessage_panic_iff msg sev fac).mp hp
        obtain ⟨hne, h32, hdig⟩ := isSignedDigits_spec t hsd
        rw [e] at h0 h4
        obtain ⟨hl, q, hq⟩ := index_after_header t rest h32 h0 h4 hne
        obtain ⟨d, hd⟩ := List.length_eq_one.mp hl
        refine ⟨d, q, hdig d hd, ?_⟩
        rw [e, hd, hq]
        rfl
    · rintro ⟨d, rest, hd, e⟩
      obtain ⟨h32, h62, _, _, hA, hlo, hhi⟩ := digit_facts d hd
      have h62n : (62 : Byte) ∉ [d] := by
        intro hm
        exact h62 (List.mem_singleton.mp hm).symm
      have hmsg : msg = 60 :: [d] ++ 62 :: (32 :: rest) := by
        rw [e]
        rfl
      have hh := parsed_header [d] (32 :: rest) h62n
      rw [hA] at hh
      simp only [] at hh
      rw [if_neg (by omega)] at hh
      rw [hmsg, hh, hostAndMessage_panic_iff]
      have hidx : strings.Index (60 :: [d] ++ 62 :: 32 :: rest) 32 = 3 :=
        index_digit_space d rest h32
      rw [hidx]
      constructor <;> omega
  refine ⟨main, ?_⟩
  intro h hp
  obtain ⟨d, rest, hd, e⟩ := main.mp hp
  have hidx : strings.Index msg 32 = 3 := by
    rw [e]
    exact index_digit_space d rest (digit_facts d hd).1
  rcases h with h | h
  · apply h
    rw [e]
    simp
  · omega

theorem hostAndMessage_not_error (msg : GoString) (sev fac : Int) (err : json.MarshalError) :
    hostAndMessage msg sev fac ≠ Outcome.error err := by
  unfold hostAndMessage
  intro h
  split_ifs at h
  split at h
  · exact Outcome.noConfusion h
  · split at h <;> exact Outcome.noConfusion h

/-- C13: when the input holds a space and the decoder yields a record, the host
name holds no space and the input is its first four bytes, the host name, one
space and the message: the host name is what stands from offset 4 up to the
first space of the whole input, the message all that follows that space. -/
theorem C13_fields_recover_input (msg : GoString) (r : Parsed)
    (hsp : (32 : Byte) ∈ msg) (h : parseSyslogMessage.parsed msg = Outcome.ok r) :
    (32 : Byte) ∉ r.hostname
      ∧ msg = msg.take 4 ++ r.hostname ++ 32 :: r.message
      ∧ slice msg 0 4 = some (msg.take 4)
      ∧ ∃ pre post, msg = pre ++ 32 :: post ∧ (32 : Byte) ∉ pre
          ∧ strings.Index msg 32 = (pre.length : Int)
          ∧ r.hostname = pre.drop 4 ∧ r.message = post := by
  obtain ⟨pre, post, e, hn⟩ := exists_first msg 32 hsp
  have hidx : strings.Index msg 32 = (pre.length : Int) := by
    rw [e]
    exact indexByte_append_cons pre post 32 hn
  rcases parsed_cases msg with ⟨f, hf⟩ | ⟨t, rest, sev, fac, _, _, _, hh⟩
  · rw [hf] at h
    cases h
  · rw [hh] at h
    have hl : 4 ≤ pre.length := by
      by_contra hlt
      have hp : hostAndMessage msg sev fac = Outcome.panic :=
        (hostAndMessage_panic_iff msg sev fac).mpr ⟨by omega, by omega⟩
      rw [hp] at h
      cases h
    have hok := hostAndMessage_space pre post sev fac hn hl
    rw [← e, h] at hok
    have hr : r = ⟨sev, fac, pre.drop 4, post⟩ := Outcome.ok.inj hok
    have hhost : r.hostname = pre.drop 4 := by rw [hr]
    have hmes : r.message = post := by rw [hr]
    have htake : msg.take 4 = pre.take 4 := by
      rw [e]
      exact List.take_append_of_le_length hl
    refine ⟨?_, ?_, ?_, pre, post, e, hn, hidx, hhost, hmes⟩
    · rw [hhost]
      exact fun hm => hn (List.mem_of_mem_drop hm)
    · rw [htake, hhost, hmes, List.take_append_drop]
      exact e
    · have hlen : 4 ≤ msg.length := by
        rw [e, List.length_append]
        omega
      unfold slice
      rw [if_pos ⟨le_refl _, by omega, by omega⟩]
      simp

/-- C13 at `<13>Apr 20 15:04:05 hostname myapp: message`, whose host name is
`Apr`. -/
theorem C13_fields_recover_input_witness :
    (32 : Byte) ∈ ascii "<13>Apr 20 15:04:05 hostname myapp: message"
      ∧ parseSyslogMessage.parsed (ascii "<13>Apr 20 15:04:05 hostname myapp: message")
          = Outcome.ok ⟨5, 1, ascii "Apr", ascii "20 15:04:05 hostname myapp: message"⟩
      ∧ ((32 : Byte) ∉ ascii "Apr"
        ∧ ascii "<13>Apr 20 15:04:05 hostname myapp: message"
            = (ascii "<13>Apr 20 15:04:05 hostname myapp: message").take 4 ++ ascii "Apr"
                ++ 32 :: ascii "20 15:04:05 hostname myapp: message"
        ∧ slice (ascii "<13>Apr 20 15:04:05 hostname myapp: message") 0 4
            = some ((ascii "<13>Apr 20 15:04:05 hostname myapp: message").take 4)
        ∧ ∃ pre post, ascii "<13>Apr 20 15:04:05 hostname myapp: message" = pre ++ 32 :: post
            ∧ (32 : Byte) ∉ pre
            ∧ strings.Index (ascii "<13>Apr 20 15:04:05 hostname myapp: message") 32
                = (pre.length : Int)
            ∧ ascii "Apr" = pre.drop 4
            ∧ ascii "20 15:04:05 hostname myapp: message" = post) :=
  have hs : (32 : Byte) ∈ ascii "<13>Apr 20 15:04:05 hostname myapp: message" := by
    set_option maxRecDepth 100000 in decide
  have h : parseSyslogMessage.parsed (ascii "<13>Apr 20 15:04:05 hostname myapp: message")
      = Outcome.ok ⟨5, 1, ascii "Apr", ascii "20 15:04:05 hostname myapp: message"⟩ := by
    set_option maxRecDepth 100000 in decide
  ⟨hs, h, C13_fields_recover_input _ _ hs h⟩

theorem parse_not_error (msg : GoString) (err : json.MarshalError) :
    parseSyslogMessage msg ≠ Outcome.error err := by
  intro h
  unfold parseSyslogMessage parseSyslogMessageWith at h
  rcases parsed_cases msg with ⟨f, hf⟩ | ⟨t, rest, sev, fac, _, _, _, hh⟩
  · rw [hf] at h
    cases h
  · cases hp : parseSyslogMessage.parsed msg with
    | ok p =>
      rw [hp] at h
      cases h
    | error e2 =>
      rw [hh] at hp
      exact hostAndMessage_not_error _ _ _ _ hp
    | fatal f =>
      rw [hp] at h
      cases h
    | panic =>
      rw [hp] at h
      cases h

/-- Whenever `handleMessage` reaches its send, the decoder has returned a record
and the payload is the whole JSON text; the decoder itself returns a non-nil
error on no message. -/
theorem handleMessage_sends_only_ok (m : GoString) (payload : Option GoString)
    (logged : Option json.MarshalError) (hm : handleMessage m = Handled.sends payload logged) :
    ∃ b, parseSyslogMessage m = Outcome.ok b ∧ payload = some b ∧ logged = none := by
  unfold handleMessage handleMessage.afterDecode at hm
  cases hp : parseSyslogMessage m with
  | ok b =>
    rw [hp] at hm
    simp only [Handled.sends.injEq] at hm
    exact ⟨b, rfl, hm.1.symm, hm.2.symm⟩
  | error err => exact absurd hp (parse_not_error m err)
  | fatal f =>
    rw [hp] at hm
    cases hm
  | panic =>
    rw [hp] at hm
    cases hm

/-- C12 (defect in the code): when the decoder returns a non-nil error,
`handleMessage` does not stop. Lines 131 to 133 log the error, and with no
`return` the send of line 135 follows and puts the nil payload on `Messages`.
The method is nothing but these lines run on what the decoder returned. -/
theorem C12_error_branch_sends_nil (err : json.MarshalError) :
    handleMessage.afterDecode (Outcome.error err) = Handled.sends none (some err)
      ∧ (∀ payload logged,
          handleMessage.afterDecode (Outcome.error err) = Handled.sends payload logged
            → payload = none)
      ∧ ∀ message, handleMessage message
          = handleMessage.afterDecode (parseSyslogMessage message) := by
  refine ⟨rfl, ?_, fun _ => rfl⟩
  intro payload logged h
  have e : handleMessage.afterDecode (Outcome.error err) = Handled.sends none (some err) := rfl
  rw [e] at h
  simp only [Handled.sends.injEq] at h
  exact h.1.symm

/-! ## The facility and the declared constants -/

set_option maxRecDepth 100000 in
theorem facilityConstants_get : ∀ k : Nat, k < 24 →
    facilityConstants.get? k = some (((k * 8 : Nat) : Int)) := by
  decide

set_option maxRecDepth 100000 in
theorem mask_small : ∀ p : Nat, p < 192 → p &&& 248 = p / 8 * 8 := by
  decide

/-- C15 as stated fails: priority 13 yields the facility 1, and the constant of
rank 1, `UserLevelMessages`, is 8. -/
theorem C15_facility_constant_counterexample :
    parseSyslogMessage.parsed (ascii "<13>Apr 20 15:04:05 hostname myapp: message")
        = Outcome.ok ⟨5, 1, ascii "Apr", ascii "20 15:04:05 hostname myapp: message"⟩
      ∧ facilityConstants.get? (13 / 8) = some UserLevelMessages
      ∧ UserLevelMessages = 8 ∧ (1 : Int) ≠ UserLevelMessages
      ∧ LocalUse7 = 184 := by
  set_option maxRecDepth 100000 in decide

/-- C15, amended: for every priority `p` in `[0,191]`, the facility of a record
decoded from `<p>...` is `k = p div 8`, and the `Facility` constant of rank `k`
is `8 * k`, which is `p & facilityMask`: the facility is that constant shifted
right by 3, not the constant itself. -/
theorem C15_facility_is_constant_shifted (p : Nat) (rest : GoString) (r : Parsed)
    (hp : p ≤ 191)
    (h : parseSyslogMessage.parsed (ascii "<" ++ decimal p ++ ascii ">" ++ rest) = Outcome.ok r) :
    r.facility = ((p / 8 : Nat) : Int)
      ∧ facilityConstants.get? (p / 8) = some (r.facility * 8)
      ∧ facilityConstants.get? (p / 8) = some (Int.land (p : Int) facilityMask)
      ∧ ∃ c, facilityConstants.get? (p / 8) = some c ∧ r.facility = c >>> facilityShift := by
  have hmsg : ascii "<" ++ decimal p ++ ascii ">" ++ rest = 60 :: decimal p ++ 62 :: rest := by
    have : ascii ">" = [62] := by decide
    rw [ascii_lt, this]
    simp
  rw [hmsg, parsed_decimal p hp] at h
  obtain ⟨_, hf⟩ := hostAndMessage_fields _ _ _ _ h
  have hfac : r.facility = ((p / 8 : Nat) : Int) := by
    rw [hf]
    norm_cast
  have hk : p / 8 < 24 := by omega
  have hc := facilityConstants_get (p / 8) hk
  have hmask : Int.land (p : Int) facilityMask = ((p / 8 * 8 : Nat) : Int) := by
    have a : Int.land (p : Int) facilityMask = ((p &&& 248 : Nat) : Int) := rfl
    rw [a, mask_small p (by omega)]
  refine ⟨hfac, ?_, ?_, ((p / 8 * 8 : Nat) : Int), hc, ?_⟩
  · rw [hc, hfac]
    push_cast
    rfl
  · rw [hc, hmask]
  · rw [hfac]
    have b : (((p / 8 * 8 : Nat) : Int)) >>> facilityShift
        = (((p / 8 * 8) >>> 3 : Nat) : Int) := rfl
    rw [b, Nat.shiftRight_eq_div_pow]
    congr 1
    omega

/-- C15, amended, at priority 13 on the datagram of the repository's test. -/
theorem C15_facility_is_constant_shifted_witness :
    13 ≤ 191
      ∧ parseSyslogMessage.parsed
          (ascii "<" ++ decimal 13 ++ ascii ">" ++ ascii "Apr 20 15:04:05 hostname myapp: message")
        = Outcome.ok ⟨5, 1, ascii "Apr", ascii "20 15:04:05 hostname myapp: message"⟩
      ∧ ((1 : Int) = ((13 / 8 : Nat) : Int)
        ∧ facilityConstants.get? (13 / 8) = some ((1 : Int) * 8)
        ∧ facilityConstants.get? (13 / 8) = some (Int.land ((13 : Nat) : Int) facilityMask)
        ∧ ∃ c, facilityConstants.get? (13 / 8) = some c ∧ (1 : Int) = c >>> facilityShift) :=
  have h : parseSyslogMessage.parsed
      (ascii "<" ++ decimal 13 ++ ascii ">" ++ ascii "Apr 20 15:04:05 hostname myapp: message")
      = Outcome.ok ⟨5, 1, ascii "Apr", ascii "20 15:04:05 hostname myapp: message"⟩ := by
    set_option maxRecDepth 100000 in decide
  ⟨by decide, h, C15_facility_is_constant_shifted 13 _ _ (by decide) h⟩

/-! ## Delivery on the channel without buffer -/

theorem step_datagram_keeps (s : Server) (message : GoString) :
    (s.step (Event.datagram message)).returned = s.returned
      ∧ (s.step (Event.datagram message)).received = s.received := by
  unfold Server.step
  by_cases he : s.exited = true
  · simp [he]
  · simp only [he]
    cases handleMessage message <;> simp

/-- With no consumer, that is with no receive among the events, no call of
`handleMessage` ever returns and nothing is received. -/
theorem run_datagrams_keeps (msgs : List GoString) (s : Server) :
    (s.run (msgs.map Event.datagram)).returned = s.returned
      ∧ (s.run (msgs.map Event.datagram)).received = s.received := by
  induction msgs generalizing s with
  | nil => exact ⟨rfl, rfl⟩
  | cons m rest ih =>
    have h1 := step_datagram_keeps s m
    have h2 := ih (s.step (Event.datagram m))
    simp only [List.map_cons, Server.run, List.foldl_cons] at h2 ⊢
    exact ⟨h2.1.trans h1.1, h2.2.trans h1.2⟩

/-- C11 (defect in the code): with no consumer of `Messages`, two well-formed
datagrams leave two goroutines parked in the send of line 135 and no call of
`handleMessage` returned; with one receive, one goroutine stays parked; and
after a datagram that fails to decode the process is gone, so the datagram that
follows gives no outcome at all. -/
theorem C11_unbuffered_send_parks_every_task :
    (NewSyslogServer.run
        [Event.datagram (ascii "<13>Apr 20 15:04:05 hostname myapp: message"),
         Event.datagram (ascii "<14>Apr 20 15:04:06 hostname myapp: message")]).parked.length = 2
      ∧ (NewSyslogServer.run
        [Event.datagram (ascii "<13>Apr 20 15:04:05 hostname myapp: message"),
         Event.datagram (ascii "<14>Apr 20 15:04:06 hostname myapp: message")]).returned = 0
      ∧ (NewSyslogServer.run
        [Event.datagram (ascii "<13>Apr 20 15:04:05 hostname myapp: message"),
         Event.datagram (ascii "<14>Apr 20 15:04:06 hostname myapp: message"),
         Event.receive 0]).parked.length = 1
      ∧ (NewSyslogServer.run
        [Event.datagram (ascii "garbage"),
         Event.datagram (ascii "<13>Apr 20 15:04:05 hostname myapp: message")])
        = ⟨true, [], 0, []⟩ := by
  set_option maxRecDepth 100000 in decide

end SyslogGoat
